import Mathlib

/-!
Verification development for the `esm-d-ts` Svelte plugin.

The definitions below are a shallow embedding of the plugin's own code:

* `DTSPluginSvelte` (source `src/DTSPluginSvelte.js`): the plugin event
  handlers `compileDiagnosticFilter`, `compileTransform` and
  `postprocessDTS`, together with the static regexes they use
  (`#regexScriptContent`, `#regexScriptIsTS`, `#regexSvelteFile`,
  `#regexTypedef`).  File-system access, the external `svelte2tsx`
  compiler and the external TypeScript parser are modelled as explicit
  arguments / effect lists, since they are third-party code.
* `JSDocCommentParser` (source `src/JSDocCommentParser.js`): the walk over
  the parsed script tree, the `@componentDocumentation` sub-tag parsing and
  the construction of the comment bundle (`ComponentJSDoc`).  JSDoc comment
  blocks are carried structurally (`JSDocComment`); their raw text is the
  canonical rendering `render`, standing in for the external
  `comment-parser` / `ESTreeParsedComment` serialization.
* `PostprocessDTS` (source `src/PostprocessDTS.js`): the declaration
  rewriting over a structural model of the `ts-morph` `SourceFile`.
  `replaceWithText` on a node is modelled as updating the corresponding
  structural field (for nodes carrying a leading JSDoc block the replaced
  range includes the block, matching `ts-morph`'s `getStart(true)`), and
  text-level type captures (`getType().getText()`) are modelled by the
  structural `TypeShape` the text denotes.

Machine behaviour that the code relies on but that lives outside this
repository (the TypeScript parser, `svelte2tsx`, `parseImportType`,
`getFileList`, the file system) is passed in as function arguments or
reported as effect values, never hard-coded.
-/

set_option autoImplicit false

/-- Characters treated as whitespace by the JavaScript `\s` class (ASCII
fragment; the sources only ever meet ASCII whitespace here). -/
def isWsChar (c : Char) : Bool :=
  c = ' ' || c = '\t' || c = '\n' || c = '\r' || c = '\x0b' || c = '\x0c'

/-- JavaScript `\w` word characters, used for the `\b` boundary after
`<script` in `#regexScriptContent` / `#regexScriptReplace`. -/
def isWordChar (c : Char) : Bool :=
  c.isAlpha || c.isDigit || c = '_'

/-- `String.endsWith`, computed on the character lists so that kernel
reduction works. -/
def strEndsWith (s suffix : String) : Bool :=
  suffix.toList.isSuffixOf s.toList

/-- `String.startsWith`, computed on the character lists so that kernel
reduction works. -/
def strStartsWith (s pre : String) : Bool :=
  pre.toList.isPrefixOf s.toList

/-- Association-list lookup (JavaScript `Map.prototype.get`). -/
def lookupStr {α : Type} : List (String × α) → String → Option α
  | [], _ => none
  | p :: rest, k => if p.1 = k then some p.2 else lookupStr rest k

/-- JavaScript `Map.prototype.set` on an insertion-ordered association
list: an existing key keeps its position and gets the new value, a new key
is appended. -/
def mapSet {α : Type} (m : List (String × α)) (k : String) (v : α) :
    List (String × α) :=
  if (lookupStr m k).isSome then
    m.map (fun p => if p.1 = k then (k, v) else p)
  else
    m ++ [(k, v)]

/-- JavaScript `Set.prototype.add` on an insertion-ordered list. -/
def setAddStr (s : List String) (x : String) : List String :=
  if x ∈ s then s else s ++ [x]

/-- `Array.prototype.sort()` on strings (lexicographic). -/
def insertSorted (x : String) : List String → List String
  | [] => [x]
  | y :: ys => if x ≤ y then x :: y :: ys else y :: insertSorted x ys

/-- Sorted copy of a list of strings. -/
def sortStrings (l : List String) : List String :=
  l.foldr insertSorted []

/-- Split a character list on `/`. -/
def splitSlashGo (acc : List Char) : List Char → List String
  | [] => [String.mk acc.reverse]
  | c :: rest =>
    if c = '/' then String.mk acc.reverse :: splitSlashGo [] rest
    else splitSlashGo (c :: acc) rest

/-- Path segments of a slash-separated path (empty segments dropped). -/
def splitPath (p : String) : List String :=
  (splitSlashGo [] p.toList).filter (fun s => s ≠ "")

/-- Drop the shared leading segments of two segment lists. -/
def dropShared : List String → List String → (List String × List String)
  | a :: as_, b :: bs =>
    if a = b then dropShared as_ bs else (a :: as_, b :: bs)
  | as_, bs => (as_, bs)

/-- Join segments with `/`. -/
def joinWithSlash : List String → String
  | [] => ""
  | [x] => x
  | x :: xs => x ++ "/" ++ joinWithSlash xs

/-- Model of `upath.relative(from, to)` for already-normalized absolute
paths: strip the common segment prefix, then one `..` per remaining
segment of `from` followed by the remaining segments of `to`. -/
def upathRelative (fromDir toPath : String) : String :=
  let p := dropShared (splitPath fromDir) (splitPath toPath)
  joinWithSlash (p.1.map (fun _ => "..") ++ p.2)

/-! ### `DTSPluginSvelte.#regexTypedef`

`/\/\*\*\s*?@typedef[\s\S]*?__propDef[\s\S]*?\*\/\s*/g` applied with a
global replace by the empty string. -/

/-- Drop characters until `target` is a prefix, returning the remainder
after `target`; `none` when `target` never occurs (the lazy `[\s\S]*?`
followed by a literal). -/
def dropAfter (target : List Char) : List Char → Option (List Char)
  | [] => if target.isEmpty then some [] else none
  | cs@(_ :: rest) =>
    if target.isPrefixOf cs then some (cs.drop target.length)
    else dropAfter target rest

/-- Lazy `\s*?` followed by a literal: skip only whitespace characters and
stop at the first position where `target` matches. -/
def wsThen (target : List Char) : List Char → Option (List Char)
  | [] => if target.isEmpty then some [] else none
  | cs@(c :: rest) =>
    if target.isPrefixOf cs then some (cs.drop target.length)
    else if isWsChar c then wsThen target rest
    else none

/-- Try to match `#regexTypedef` at the start of `cs`; on success return
the remainder after the match (the trailing `\s*` is greedy). -/
def matchTypedefAt (cs : List Char) : Option (List Char) :=
  if ("/**".toList).isPrefixOf cs then do
    let cs1 ← wsThen ("@typedef".toList) (cs.drop 3)
    let cs2 ← dropAfter ("__propDef".toList) cs1
    let cs3 ← dropAfter ("*/".toList) cs2
    some (cs3.dropWhile isWsChar)
  else none

/-- Fuel-driven global scan for `#regexTypedef`; on a match the scan
resumes after the matched text, otherwise it advances one character. -/
def stripTypedefsGo : Nat → List Char → List Char
  | 0, cs => cs
  | _ + 1, [] => []
  | fuel + 1, cs@(c :: rest) =>
    match matchTypedefAt cs with
    | some remainder => stripTypedefsGo fuel remainder
    | none => c :: stripTypedefsGo fuel rest

/-- `fileData.replaceAll(#regexTypedef, '')`: remove every spurious
`@typedef … __propDef …` JSDoc block. -/
def stripTypedefs (s : String) : String :=
  String.mk (stripTypedefsGo s.length s.toList)

/-! ### `DTSPluginSvelte.#regexScriptContent` / `#regexScriptReplace`

`/<script\b[^>]*>(?<contents>[\s\S]*?)<\/script>/` — first match only. -/

/-- The pieces of the first `<script …>…</script>` match: text before the
match, the opening tag, the contents group, and the text after. -/
structure ScriptMatch where
  before : String
  openTag : String
  contents : String
  after : String
deriving DecidableEq, Repr

/-- Greedy `[^>]*` followed by `>`: consume up to and including the first
`>`; `none` when no `>` remains. -/
def scanToGt : List Char → Option (List Char × List Char)
  | [] => none
  | c :: rest =>
    if c = '>' then some (['>'], rest)
    else (scanToGt rest).map (fun p => (c :: p.1, p.2))

/-- Lazy `[\s\S]*?` followed by `</script>`: contents up to the first
closing tag, and the remainder after it. -/
def scanToClose : List Char → Option (List Char × List Char)
  | [] => none
  | cs@(c :: rest) =>
    if ("</script>".toList).isPrefixOf cs then some ([], cs.drop 9)
    else (scanToClose rest).map (fun p => (c :: p.1, p.2))

/-- Try to match `<script\b[^>]*>` at the start of `cs`, returning the
opening-tag characters and the remainder. -/
def matchOpenAt (cs : List Char) : Option (List Char × List Char) :=
  if ("<script".toList).isPrefixOf cs then
    let afterKw := cs.drop 7
    let boundaryOk := match afterKw with
      | c :: _ => !isWordChar c
      | [] => false
    if boundaryOk then
      match scanToGt afterKw with
      | some p => some ("<script".toList ++ p.1, p.2)
      | none => none
    else none
  else none

/-- Left-to-right scan for the first full script-tag match. -/
def scriptContentGo : List Char → List Char → Option ScriptMatch
  | _, [] => none
  | acc, cs@(c :: rest) =>
    match matchOpenAt cs with
    | some (tag, afterOpen) =>
      match scanToClose afterOpen with
      | some (contents, after) =>
        some { before := String.mk acc.reverse, openTag := String.mk tag,
               contents := String.mk contents, after := String.mk after }
      | none => none
    | none => scriptContentGo (c :: acc) rest

/-- `#regexScriptContent.exec(code)`: the first script-tag match of a
component file, or `none`. -/
def scriptContentExec (code : String) : Option ScriptMatch :=
  scriptContentGo [] code.toList

/-- `code.replace(#regexScriptReplace, $1 newContents $3)`: swap the
contents of the first script tag. -/
def replaceScriptContent (code newContents : String) : String :=
  match scriptContentExec code with
  | some m => m.before ++ m.openTag ++ newContents ++ "</script>" ++ m.after
  | none => code

/-! ### `DTSPluginSvelte.#regexScriptIsTS`

`/<script\s+[^>]*?lang=(['"]?)(ts|typescript)\1[^>]*>/` with full
backtracking over the optional quote and the alternation. -/

/-- After the `lang=` value: the optional backreferenced closing quote and
`[^>]*>` (which succeeds exactly when a `>` remains). -/
def closeQuoteOk (q : Option Char) (cs : List Char) : Bool :=
  match q with
  | some qc =>
    match cs with
    | c :: r2 => c = qc && r2.contains '>'
    | [] => false
  | none => cs.contains '>'

/-- `(ts|typescript)\1[^>]*>` with the given captured quote. -/
def matchTsValue (q : Option Char) (cs : List Char) : Bool :=
  (("ts".toList).isPrefixOf cs && closeQuoteOk q (cs.drop 2)) ||
  (("typescript".toList).isPrefixOf cs && closeQuoteOk q (cs.drop 10))

/-- `(['"]?)(ts|typescript)\1[^>]*>`: the quote group first tries a quote
character, then backtracks to the empty capture. -/
def matchLang (cs : List Char) : Bool :=
  match cs with
  | c :: rest =>
    if c = '\x27' || c = '"' then matchTsValue (some c) rest || matchTsValue none cs
    else matchTsValue none cs
  | [] => false

/-- Lazy `[^>]*?lang=` followed by the value: search for `lang=` without
crossing a `>`. -/
def scanLang : List Char → Bool
  | [] => false
  | cs@(c :: rest) =>
    if ("lang=".toList).isPrefixOf cs && matchLang (cs.drop 5) then true
    else if c = '>' then false
    else scanLang rest

/-- Try `#regexScriptIsTS` at the start of `cs` (which requires at least
one whitespace character right after `<script`). -/
def scriptTsAt (cs : List Char) : Bool :=
  ("<script".toList).isPrefixOf cs &&
  (match cs.drop 7 with
   | c :: rest => isWsChar c && scanLang rest
   | [] => false)

/-- Scan every start position for `#regexScriptIsTS`. -/
def scriptIsTSGo : List Char → Bool
  | [] => false
  | cs@(_ :: rest) => scriptTsAt cs || scriptIsTSGo rest

/-- `#regexScriptIsTS.test(code)`: does any script tag carry a
TypeScript `lang` attribute? -/
def scriptIsTS (code : String) : Bool :=
  scriptIsTSGo code.toList

/-! ### `DTSPluginSvelte.compileDiagnosticFilter` -/

/-- `#regexSvelteFile`: `/\.svelte\.(js|ts)$/`. -/
def svelteFileTest (s : String) : Bool :=
  strEndsWith s ".svelte.js" || strEndsWith s ".svelte.ts"

/-- The data of one TypeScript diagnostic the filter looks at:
`diagnostic?.file?.fileName` (absent when the diagnostic has no source
file) and `diagnostic.code`.  The `message` string is passed separately,
as in the event data. -/
structure Diagnostic where
  fileName : Option String
  code : Nat
deriving DecidableEq, Repr

/-- Observable outcome of the filter: the returned suppression flag
(`undefined` on fall-through is falsy, modelled as `false`) and whether
`diagnosticLog(diagnostic, 'debug')` was called. -/
structure FilterResult where
  suppress : Bool
  debugLogged : Bool
deriving DecidableEq, Repr

namespace DTSPluginSvelte

/-- `DTSPluginSvelte.compileDiagnosticFilter({ diagnostic, diagnosticLog,
message })`, modelled as a pure function from the diagnostic data to the
returned flag plus the debug-log effect. -/
def compileDiagnosticFilter (d : Diagnostic) (message : String) : FilterResult :=
  if (match d.fileName with
      | some n => svelteFileTest n
      | none => false) && (d.code == 1005 || d.code == 2451) then
    { suppress := true, debugLogged := true }
  else if d.code == 2304 &&
      strStartsWith message "Cannot find name \x27__sveltets_createSlot\x27" then
    { suppress := true, debugLogged := false }
  else if d.code == 2339 &&
      strStartsWith message "Property \x27undefined\x27 does not exist on type \x27\x7b" then
    { suppress := true, debugLogged := false }
  else
    { suppress := false, debugLogged := false }

end DTSPluginSvelte

/-! ## `JSDocCommentParser`

The script text handed to `processScript` is parsed by the external
TypeScript compiler (`ts-morph` `Project`).  The embedding works on the
parsed form directly: a `ScriptNode` tree whose nodes carry their leading
JSDoc blocks in structured form. -/

/-- One parsed JSDoc tag.  `type` is the `comment-parser` field consulted
for `@type` tags, `rawType` the `ESTreeParsedComment` field consulted for
`@implements` / `@param` tags; absent parts are empty strings, matching
both parsers. -/
structure ParsedTag where
  tag : String
  name : String
  type : String
  rawType : String
  description : String
deriving DecidableEq, Repr

/-- One JSDoc comment block in structured form. -/
structure JSDocComment where
  description : String
  tags : List ParsedTag
deriving DecidableEq, Repr

/-- Canonical raw text of a tag line (stands in for the external
serializers; the development only relies on this rendering being a fixed
function of the structure). -/
def renderTag (t : ParsedTag) : String :=
  "\n * @" ++ t.tag ++
  (if t.rawType ≠ "" then " \x7b" ++ t.rawType ++ "\x7d" else "") ++
  (if t.name ≠ "" then " " ++ t.name else "") ++
  (if t.description ≠ "" then " " ++ t.description else "")

/-- Canonical raw text of a JSDoc comment block. -/
def render (c : JSDocComment) : String :=
  "/**\n * " ++ c.description ++ String.join (c.tags.map renderTag) ++ "\n */"

/-- `JSDocCommentParser.#removeTags`: tags processed in the
`@componentDocumentation` block and then stripped from it. -/
def removeTagsList : List String :=
  ["componentDocumentation", "implements", "param"]

/-- `JSDocCommentParser.#componentTags`: marker tags forwarded to the
generated namespace. -/
def componentTagsList : List String :=
  ["hidden", "ignore", "internal"]

/-- `ESTreeParsedComment.removeTags(#removeTags)` in structured form. -/
def removeTagsStruct (c : JSDocComment) : JSDocComment :=
  { c with tags := c.tags.filter (fun t => t.tag ∉ removeTagsList) }

/-- Event descriptor captured from a `@param` tag:
`{ comment?: string, type?: string }`. -/
structure EventData where
  comment : Option String
  type : Option String
deriving DecidableEq, Repr

/-- The `logger.warn` calls of the plugin, by call site. -/
inductive Warning where
  | duplicateImplements (rawType relativeFilepath : String)
  | paramNoName (relativeFilepath : String)
  | paramNoTypeOrDescription (relativeFilepath : String)
  | eventNameNotFound (name relativeFilepath : String)
deriving DecidableEq, Repr

/-- `\n` → `\n * ` (JSDoc line delimiter) on the description text. -/
def jsdocDelim : List Char → List Char
  | [] => []
  | c :: rest =>
    if c = '\n' then '\n' :: ' ' :: '*' :: ' ' :: jsdocDelim rest
    else c :: jsdocDelim rest

/-- The synthetic doc comment built from a `@param` description:
`/**\n * ${description.replace(/^[\s-]+/, '').replace(/\n/g, '\n * ')}\n */`. -/
def buildEventComment (description : String) : String :=
  "/**\n * " ++
  String.mk (jsdocDelim (description.toList.dropWhile (fun c => isWsChar c || c = '-'))) ++
  "\n */"

/-- Mutable state of the reverse loop over the tags of one
`@componentDocumentation` block. -/
structure CompDocState where
  events : List (String × EventData)
  interfaces : List String
  tags : List String
  warnings : List Warning
deriving DecidableEq, Repr

/-- Loop body of `JSDocCommentParser.#parseComponentDescription` for one
parsed tag (the loop iterates the tag list in reverse index order). -/
def compDocTagStep (rel : String) (acc : CompDocState) (parsedTag : ParsedTag) :
    CompDocState :=
  let acc :=
    if parsedTag.tag = "implements" then
      let ws :=
        if parsedTag.rawType ∈ acc.interfaces then
          acc.warnings ++ [Warning.duplicateImplements parsedTag.rawType rel]
        else acc.warnings
      { acc with warnings := ws, interfaces := setAddStr acc.interfaces parsedTag.rawType }
    else acc
  if parsedTag.tag = "param" then
    if parsedTag.name = "" then
      { acc with warnings := acc.warnings ++ [Warning.paramNoName rel] }
    else
      let type := if parsedTag.rawType ≠ "" then some parsedTag.rawType else none
      let comment :=
        if parsedTag.description ≠ "" then some (buildEventComment parsedTag.description)
        else none
      if type.isNone && comment.isNone then
        { acc with warnings := acc.warnings ++ [Warning.paramNoTypeOrDescription rel] }
      else
        { acc with events := mapSet acc.events parsedTag.name ⟨comment, type⟩ }
  else if parsedTag.tag ∈ componentTagsList then
    { acc with tags := acc.tags ++ [parsedTag.tag] }
  else acc

/-- The full reverse loop over the tags of one tagged comment block
(`for (let i = parsedTags.length; --i >= 0;)`). -/
def parseComponentDocumentationTags (rel : String) (tags : List ParsedTag) :
    CompDocState :=
  (tags.reverse).foldl (compDocTagStep rel) ⟨[], [], [], []⟩

/-- One result entry of `#parseComponentDescription`: the cleaned comment
(raw text and, for the model, its structured form), the event map, the
interface set and the forwarded tags. -/
structure CompDocEntry where
  comment : String
  cleanedStruct : JSDocComment
  events : List (String × EventData)
  interfaces : List String
  tags : List String
deriving DecidableEq, Repr

/-- Does a comment block carry the `@componentDocumentation` tag
(`parsed[i].tags.some((entry) => entry.tag === 'componentDocumentation')`)? -/
def hasCompDocTagComment (c : JSDocComment) : Bool :=
  c.tags.any (fun t => t.tag = "componentDocumentation")

/-- Loop body of `#parseComponentDescription` for one leading comment
block. -/
def compDocCommentStep (rel : String)
    (acc : List CompDocEntry × List Warning) (c : JSDocComment) :
    List CompDocEntry × List Warning :=
  if hasCompDocTagComment c then
    let st := parseComponentDocumentationTags rel c.tags
    (acc.1 ++ [{ comment := render (removeTagsStruct c),
                 cleanedStruct := removeTagsStruct c,
                 events := st.events, interfaces := st.interfaces,
                 tags := st.tags }],
     acc.2 ++ st.warnings)
  else acc

/-- `JSDocCommentParser.#parseComponentDescription`: process every leading
comment block carrying a `@componentDocumentation` tag. -/
def parseComponentDescription (comments : List JSDocComment) (rel : String) :
    List CompDocEntry × List Warning :=
  comments.foldl (compDocCommentStep rel) ([], [])

/-- A class / function / variable declaration name together with its
export flag (`isNamedDeclaration(node) && node.isExported()`). -/
structure NamedDecl where
  name : String
  isExported : Bool
deriving DecidableEq, Repr

/-- Parsed form of one compiler node: its leading JSDoc blocks, whether it
is a named declaration, its own (non-comment) source text, and its
children. -/
inductive ScriptNode where
  | mk (comments : List JSDocComment) (decl : Option NamedDecl)
       (ownText : String) (children : List ScriptNode)
deriving Repr

/-- `parseLeadingComments(node.compilerNode, tsSourceFile)` result shape. -/
structure ParsedLeadingComments where
  comments : List String
  parsed : List JSDocComment
  lastComment : Option String
  lastParsed : Option JSDocComment
deriving DecidableEq, Repr

/-- Model of `parseLeadingComments` on a node's structured blocks. -/
def parseLeading (comments : List JSDocComment) : ParsedLeadingComments :=
  { comments := comments.map render, parsed := comments,
    lastComment := (comments.map render).getLast?,
    lastParsed := comments.getLast? }

/-- Mutable state of `processScript`'s `walk` closure: the result under
construction plus the `lastComment` / `lastParsed` variables. -/
structure WalkState where
  componentDocumentation : Option String
  componentEvents : Option (List (String × EventData))
  componentInterfaces : Option (List String)
  componentTags : List String
  propComments : List (String × String)
  propNames : List String
  propTypes : List (String × String)
  lastComment : Option String
  lastParsed : Option JSDocComment
  warnings : List Warning
deriving DecidableEq, Repr

mutual

/-- `walk` on one node.  `node.replaceWithText(cleaned + "\n" +
node.getText())` replaces the node range including its leading JSDoc
blocks (`ts-morph` replaces from `getStart(true)`), so the node's blocks
become the single cleaned block. -/
def walkNode (rel : String) (depth : Nat) (st : WalkState) :
    ScriptNode → WalkState × ScriptNode
  | .mk comments decl ownText children =>
    let jsdocComments := parseLeading comments
    let step1 : WalkState × List JSDocComment :=
      if st.componentDocumentation = none then
        let pr := parseComponentDescription comments rel
        match pr.1 with
        | e :: _ =>
          ({ st with componentDocumentation := some e.comment,
                     componentEvents := some e.events,
                     componentInterfaces := some e.interfaces,
                     componentTags := e.tags,
                     warnings := st.warnings ++ pr.2 },
           [e.cleanedStruct])
        | [] => ({ st with warnings := st.warnings ++ pr.2 }, comments)
      else (st, comments)
    let st1 := step1.1
    let comments1 := step1.2
    let st2 :=
      if depth = 0 then
        { st1 with lastComment := jsdocComments.lastComment,
                   lastParsed := jsdocComments.lastParsed }
      else st1
    let st3 :=
      match decl with
      | some nd =>
        if nd.isExported then
          let sa :=
            match st2.lastComment with
            | some lc => { st2 with propComments := mapSet st2.propComments nd.name lc }
            | none => st2
          let sb :=
            match st2.lastParsed with
            | some lp =>
              match lp.tags.find? (fun (t : ParsedTag) => decide (t.tag = "type")) with
              | some e => { sa with propTypes := mapSet sa.propTypes nd.name e.type }
              | none => sa
            | none => sa
          { sb with propNames := setAddStr sb.propNames nd.name }
        else st2
      | none => st2
    let res := walkList rel (depth + 1) st3 children
    (res.1, .mk comments1 decl ownText res.2)

/-- `walk` over a sibling list (`forEachChild`). -/
def walkList (rel : String) (depth : Nat) (st : WalkState) :
    List ScriptNode → WalkState × List ScriptNode
  | [] => (st, [])
  | n :: ns =>
    let p := walkNode rel depth st n
    let q := walkList rel depth p.1 ns
    (q.1, p.2 :: q.2)

end

mutual

/-- Canonical full text of a node (leading blocks rendered, then the
node's own text, then its children). -/
def fullTextNode : ScriptNode → String
  | .mk comments _ ownText children =>
    String.join (comments.map render) ++ ownText ++ fullTextList children

/-- `sourceFile.getFullText()` over a node list. -/
def fullTextList : List ScriptNode → String
  | [] => ""
  | n :: ns => fullTextNode n ++ fullTextList ns

end

mutual

/-- Does any node of the tree carry a tagged comment block? -/
def hasCompDocTagNode : ScriptNode → Bool
  | .mk comments _ _ children =>
    comments.any hasCompDocTagComment || hasCompDocTagList children

/-- Does any node of the list (or a descendant) carry a tagged block? -/
def hasCompDocTagList : List ScriptNode → Bool
  | [] => false
  | n :: ns => hasCompDocTagNode n || hasCompDocTagList ns

end

/-- The comment bundle (`ComponentJSDoc` typedef): all data extracted from
one component's script section. -/
structure ComponentJSDoc where
  componentDocumentation : Option String
  componentEvents : Option (List (String × EventData))
  componentInterfaces : Option (List String)
  componentTags : List String
  propComments : List (String × String)
  propNames : List String
  propTypes : List (String × String)
  relativeFilepath : String
  scriptCode : Option String
deriving DecidableEq, Repr

/-- Result of `processScript`: the returned value (typed optional, as the
host checks it for truthiness), the mutated source tree (whose rendering
is `scriptCode`), and the emitted warnings. -/
structure ProcessScriptResult where
  bundle : Option ComponentJSDoc
  tree : List ScriptNode
  warnings : List Warning

/-- `JSDocCommentParser.processScript(code, filepath, relativeFilepath,
logger)`; the `code` string arrives already parsed as a `ScriptNode`
tree. -/
def JSDocCommentParser.processScript (tree : List ScriptNode)
    (filepath relativeFilepath : String) : ProcessScriptResult :=
  let _ := filepath
  let st0 : WalkState :=
    { componentDocumentation := none, componentEvents := none,
      componentInterfaces := none, componentTags := [],
      propComments := [], propNames := [], propTypes := [],
      lastComment := none, lastParsed := none, warnings := [] }
  let p := walkList relativeFilepath 0 st0 tree
  { bundle := some
      { componentDocumentation := p.1.componentDocumentation,
        componentEvents := p.1.componentEvents,
        componentInterfaces := p.1.componentInterfaces,
        componentTags := p.1.componentTags,
        propComments := p.1.propComments,
        propNames := p.1.propNames,
        propTypes := p.1.propTypes,
        relativeFilepath := relativeFilepath,
        scriptCode := some (fullTextList p.2) },
    tree := p.2,
    warnings := p.1.warnings }

/-! ## `PostprocessDTS`

Structural model of the `ts-morph` `SourceFile` of one intermediate
`.svelte.d.ts` declaration, restricted to the parts the rewriting
touches. -/

/-- One member of a type-literal shape, with the raw text of its declared
type and an optional doc comment spliced in before it. -/
structure TypeMember where
  name : String
  typeText : String
  comment : Option String
deriving DecidableEq, Repr

/-- One operand of an intersection type.  Operands that are not plain
member lists (`Node.isTypeElementMembered` fails, e.g. nested
intersections or mapped types) are kept opaque as `other`. -/
inductive TypePart where
  | membered (ms : List TypeMember)
  | other (text : String)
deriving DecidableEq, Repr

/-- The shape of a captured type text: a plain member list, an
intersection of parts, or anything else (opaque text). -/
inductive TypeShape where
  | membered (ms : List TypeMember)
  | intersection (parts : List TypePart)
  | other (text : String)
deriving DecidableEq, Repr

/-- One type node of the `extends` heritage clause
(`heritageClause.getTypeNodes()[i]`), with its
`Node.isExpressionWithTypeArguments` status and the raw texts of its type
arguments. -/
structure HeritageTypeNode where
  isExpressionWithTypeArguments : Bool
  typeArguments : List String
deriving DecidableEq, Repr

/-- A get / set accessor of the component class.  `returnType` is the
declared return type (getters), `parameters` the declared types of the
parameters (setters). -/
structure Accessor where
  name : String
  returnType : Option String
  parameters : List (Option String)
  comment : Option String
deriving DecidableEq, Repr

/-- The default exported component class declaration. -/
structure ClassDecl where
  name : String
  isExported : Bool
  hasDeclareKeyword : Bool
  leadingDoc : Option String
  extendsClause : Option (List HeritageTypeNode)
  implementsTexts : List String
  getAccessors : List Accessor
  setAccessors : List Accessor
deriving DecidableEq, Repr

/-- The `__propDef` variable: the three properties of its inferred type,
captured as (the shapes denoted by) `getType().getText()`. -/
structure PropDef where
  props : TypeShape
  events : TypeShape
  slots : TypeShape
deriving DecidableEq, Repr

/-- A top-level type alias (`sourceFile.getTypeAliases()`), all of which
the rewriting removes. -/
structure TypeAliasDecl where
  name : String
  typeText : String
deriving DecidableEq, Repr

/-- A type alias inside the generated namespace, with its doc lines. -/
structure NsTypeAlias where
  name : String
  typeShape : TypeShape
  isExported : Bool
  docs : List String
deriving DecidableEq, Repr

/-- The generated `declare namespace <ClassName> { … }` module. -/
structure ModuleDecl where
  name : String
  hasDeclareKeyword : Bool
  aliases : List NsTypeAlias
  docDescription : Option String
  docTags : List String
deriving DecidableEq, Repr

/-- A (type-only) import declaration added for `@implements` entries. -/
structure ImportDecl where
  isTypeOnly : Bool
  namedImports : List String
  moduleSpecifier : String
deriving DecidableEq, Repr

/-- The `ts-morph` `SourceFile` of one intermediate declaration. -/
structure SourceFile where
  defaultExportClass : Option ClassDecl
  propDef : Option PropDef
  typeAliases : List TypeAliasDecl
  modules : List ModuleDecl
  importDecls : List ImportDecl
  exportAssignments : List String
deriving DecidableEq, Repr

/-- Result of `parseImportType` (external `esm-d-ts` util) on an
`@implements` entry such as `import('./x').IFoo`. -/
structure ImportTypeResult where
  module : String
  identImport : String
  identFull : String
deriving DecidableEq, Repr

/-- `propertyName.replace(/^['"]|['"]$/g, '')`: strip one leading and one
trailing quote character. -/
def cleanPropertyName (s : String) : String :=
  let cs := s.toList
  let cs1 :=
    match cs with
    | c :: rest => if c = '\x27' || c = '"' then rest else cs
    | [] => []
  let cs2 :=
    match cs1.getLast? with
    | some c => if c = '\x27' || c = '"' then cs1.dropLast else cs1
    | none => cs1
  String.mk cs2

namespace PostprocessDTS

/-- The three `PostprocessDTS` error messages. -/
def errNoClass : String :=
  "[plugin-svelte] PostprocessDTS error: Could not locate default exported component class."

def errNoHeritage : String :=
  "[plugin-svelte] PostprocessDTS error: Could not locate extends heritage clause for component class."

def errNoPropDef : String :=
  "[plugin-svelte] PostprocessDTS error: Could not locate \x27__propDef\x27 variable."

/-- Inner loop of `replaceElementMembered`: update the member list against
the captured events, threading the `remainingEventNames` set. -/
def replaceMembers (events : List (String × EventData)) :
    List TypeMember → List String → List TypeMember × List String
  | [], r => ([], r)
  | m :: ms, r =>
    let cn := cleanPropertyName m.name
    match lookupStr events cn with
    | none =>
      let p := replaceMembers events ms r
      (m :: p.1, p.2)
    | some eventData =>
      let r1 := r.erase cn
      let m1 :=
        match eventData.type with
        | some t => { m with typeText := t }
        | none => m
      let m2 :=
        match eventData.comment with
        | some cm => { m1 with comment := some cm }
        | none => m1
      let p := replaceMembers events ms r1
      (m2 :: p.1, p.2)

/-- `replaceElementMembered` over the operands of an intersection type;
only operands that are plain member lists are updated. -/
def replaceParts (events : List (String × EventData)) :
    List TypePart → List String → List TypePart × List String
  | [], r => ([], r)
  | TypePart.membered ms :: ps, r =>
    let p := replaceMembers events ms r
    let q := replaceParts events ps p.2
    (TypePart.membered p.1 :: q.1, q.2)
  | p :: ps, r =>
    let q := replaceParts events ps r
    (p :: q.1, q.2)

/-- Event substitution on the `Events` alias type node: an intersection
has each membered operand updated, a plain member list is updated
directly, anything else is untouched. -/
def replaceShape (events : List (String × EventData)) (sh : TypeShape)
    (r : List String) : TypeShape × List String :=
  match sh with
  | .intersection parts =>
    let p := replaceParts events parts r
    (.intersection p.1, p.2)
  | .membered ms =>
    let p := replaceMembers events ms r
    (.membered p.1, p.2)
  | .other t => (.other t, r)

/-- `@type` overrides on the `Props` alias member list (names are *not*
quote-stripped here, matching the source). -/
def updatePropTypes (propTypes : List (String × String)) (sh : TypeShape) :
    TypeShape :=
  match sh with
  | .membered ms =>
    .membered (ms.map (fun m =>
      match lookupStr propTypes m.name with
      | some t => { m with typeText := t }
      | none => m))
  | s => s

/-- Prop doc comments spliced before the matching `Props` members. -/
def updatePropComments (propComments : List (String × String)) (sh : TypeShape) :
    TypeShape :=
  match sh with
  | .membered ms =>
    .membered (ms.map (fun m =>
      match lookupStr propComments m.name with
      | some c => { m with comment := some c }
      | none => m))
  | s => s

/-- Loop body of the `@implements` processing for one entry of
`comments.componentInterfaces`. -/
def implementsEntryStep (pit : String → Option ImportTypeResult)
    (acc : ClassDecl × List (String × List String)) (entry : String) :
    ClassDecl × List (String × List String) :=
  match pit entry with
  | some r =>
    ({ acc.1 with implementsTexts := acc.1.implementsTexts ++ [r.identFull] },
     match lookupStr acc.2 r.module with
     | some idents => mapSet acc.2 r.module (setAddStr idents r.identImport)
     | none => acc.2 ++ [(r.module, [r.identImport])])
  | none => acc

/-- `@implements` processing: add an implements clause per parsable
import-type entry and collect the per-module identifier sets (insertion
ordered, de-duplicated). -/
def addImplementsFold (pit : String → Option ImportTypeResult)
    (entries : List String) (cls : ClassDecl) :
    ClassDecl × List (String × List String) :=
  entries.foldl (implementsEntryStep pit) (cls, [])

/-- The synthetic type-only import declarations: one per module, modules
sorted, identifiers sorted. -/
def buildImports (importIdents : List (String × List String)) : List ImportDecl :=
  if importIdents.isEmpty then []
  else
    (sortStrings (importIdents.map Prod.fst)).filterMap
      (fun m =>
        (lookupStr importIdents m).map
          (fun idents =>
            { isTypeOnly := true, namedImports := sortStrings idents,
              moduleSpecifier := m }))

/-- Doc line added to one of the namespace type aliases. -/
def aliasDoc (kind className : String) : String :=
  kind ++ " type alias for \x7b@link " ++ className ++ " | associated component\x7d."

/-- Doc description of the generated namespace. -/
def namespaceDoc (className : String) : String :=
  "Event / Prop / Slot type aliases for \x7b@link " ++ className ++
  " | associated component\x7d."

/-- Doc comment attached to a matched accessor. -/
def accessorDoc (kind className propName : String) : String :=
  "/** " ++ kind ++ " for \x7b@link " ++ className ++ ".Props." ++ propName ++
  " | " ++ propName ++ "\x7d prop. */"

/-- Getter update: return type from the `@type` override (skipping a bare
`any`), plus the linking doc comment. -/
def updateGetAccessor (className : String) (propNames : List String)
    (propTypes : List (String × String)) (a : Accessor) : Accessor :=
  if a.name ∈ propNames then
    let a1 :=
      match lookupStr propTypes a.name with
      | some t => if t ≠ "any" then { a with returnType := some t } else a
      | none => a
    { a1 with comment := some (accessorDoc "Getter" className a.name) }
  else a

/-- Setter update: first-parameter type from the `@type` override
(skipping a bare `any`), plus the linking doc comment. -/
def updateSetAccessor (className : String) (propNames : List String)
    (propTypes : List (String × String)) (a : Accessor) : Accessor :=
  if a.name ∈ propNames then
    let a1 :=
      match lookupStr propTypes a.name with
      | some t =>
        if t ≠ "any" then
          { a with parameters :=
              match a.parameters with
              | _ :: rest => some t :: rest
              | [] => [] }
        else a
      | none => a
    { a1 with comment := some (accessorDoc "Setter" className a.name) }
  else a

/-- `PostprocessDTS.#transform(comments, logger, sourceFile)`.
`parseImportType` is external `esm-d-ts` code, passed as `pit`.  Errors
thrown become `Except.error`; `logger.warn` calls become the returned
warning list; the mutated source file is returned. -/
def transform (pit : String → Option ImportTypeResult)
    (comments : Option ComponentJSDoc) (s : SourceFile) :
    Except String (SourceFile × List Warning) :=
  match s.defaultExportClass with
  | none => .error errNoClass
  | some cls0 =>
    let className := cls0.name
    let cls1 := { cls0 with isExported := false, hasDeclareKeyword := true }
    let cls2 :=
      match comments with
      | some c =>
        match c.componentDocumentation with
        | some doc => { cls1 with leadingDoc := some doc }
        | none => cls1
      | none => cls1
    match cls2.extendsClause with
    | none => .error errNoHeritage
    | some typeNodes =>
      let cls3 :=
        match typeNodes.head? with
        | some tn =>
          if tn.isExpressionWithTypeArguments && tn.typeArguments.length == 3 then
            let tn1 := { tn with typeArguments :=
              [className ++ ".Props", className ++ ".Events", className ++ ".Slots"] }
            { cls2 with extendsClause := some (tn1 :: typeNodes.tail) }
          else cls2
        | none => cls2
      let ifaceEntries :=
        match comments with
        | some c => (c.componentInterfaces).getD []
        | none => []
      let implRes :=
        if ifaceEntries.isEmpty then (cls3, [])
        else addImplementsFold pit ifaceEntries cls3
      let cls4 := implRes.1
      let newImports := buildImports implRes.2
      match s.propDef with
      | none => .error errNoPropDef
      | some propDef =>
        let relFp := (comments.map (fun c => c.relativeFilepath)).getD ""
        let eventsRes :=
          match comments.bind (fun c => c.componentEvents) with
          | some es =>
            if es.isEmpty then (propDef.events, [])
            else
              let p := replaceShape es propDef.events (es.map Prod.fst)
              (p.1, p.2.map (fun n => Warning.eventNameNotFound n relFp))
          | none => (propDef.events, [])
        let propTypesL :=
          match comments with
          | some c => c.propTypes
          | none => []
        let propsShape1 :=
          if propTypesL.isEmpty then propDef.props
          else updatePropTypes propTypesL propDef.props
        let propCommentsL :=
          match comments with
          | some c => c.propComments
          | none => []
        let propsShape2 :=
          if propCommentsL.isEmpty then propsShape1
          else updatePropComments propCommentsL propsShape1
        let namespaceDecl : ModuleDecl :=
          { name := className, hasDeclareKeyword := true,
            aliases :=
              [{ name := "Props", typeShape := propsShape2, isExported := true,
                 docs := [aliasDoc "Props" className] },
               { name := "Events", typeShape := eventsRes.1, isExported := true,
                 docs := [aliasDoc "Events" className] },
               { name := "Slots", typeShape := propDef.slots, isExported := true,
                 docs := [aliasDoc "Slots" className] }],
            docDescription := some (namespaceDoc className),
            docTags := (comments.map (fun c => c.componentTags)).getD [] }
        let propNamesL :=
          match comments with
          | some c => c.propNames
          | none => []
        let cls5 :=
          if propNamesL.isEmpty then cls4
          else
            { cls4 with
              getAccessors :=
                cls4.getAccessors.map (updateGetAccessor className propNamesL propTypesL),
              setAccessors :=
                cls4.setAccessors.map (updateSetAccessor className propNamesL propTypesL) }
        .ok
          ({ defaultExportClass := some cls5,
             propDef := none,
             typeAliases := [],
             modules := s.modules ++ [namespaceDecl],
             importDecls := s.importDecls ++ newImports,
             exportAssignments := s.exportAssignments ++ [className] },
           eventsRes.2)

/-- `PostprocessDTS.process({ comments, logger, sourceFile })`. -/
def process (pit : String → Option ImportTypeResult)
    (comments : Option ComponentJSDoc) (s : SourceFile) :
    Except String (SourceFile × List Warning) :=
  transform pit comments s

end PostprocessDTS

/-! ## `DTSPluginSvelte.compileTransform` / `postprocessDTS` -/

namespace DTSPluginSvelte

/-- The plugin instance state touched by `compileTransform`:
`memoryFiles`, the process-wide `#componentComments` map, and the
`hasSvelte` flag of one invocation. -/
structure CompileState where
  memoryFiles : List (String × String)
  componentComments : List (String × ComponentJSDoc)
  hasSvelte : Bool
deriving DecidableEq, Repr

/-- External machinery `compileTransform` calls into: the file system
read, the TypeScript parser behind `processScript`, and `svelte2tsx`
(only its `code` output is used). -/
structure CompileCtx where
  rootDir : String
  readFile : String → String
  parse : String → List ScriptNode
  s2tsx : String → String

/-- Loop body of `compileTransform` for one entry of `compileFilepaths`:
returns the (possibly replaced) filepath and the new state. -/
def compileTransformFile (ctx : CompileCtx) (st : CompileState)
    (filepath : String) : String × CompileState :=
  if strEndsWith filepath ".svelte" then
    let relativeFilepath := upathRelative ctx.rootDir filepath
    let code := ctx.readFile filepath
    let isTsFile := scriptIsTS code
    let tempPath := filepath ++ (if isTsFile then ".ts" else ".js")
    let step :=
      match scriptContentExec code with
      | some m =>
        let pres := JSDocCommentParser.processScript (ctx.parse m.contents)
          filepath relativeFilepath
        match pres.bundle with
        | some jsdocResult =>
          (replaceScriptContent code ((jsdocResult.scriptCode).getD ""),
           mapSet st.componentComments (relativeFilepath ++ ".d.ts") jsdocResult)
        | none => (code, st.componentComments)
      | none => (code, st.componentComments)
    let tsx := ctx.s2tsx step.1
    (tempPath,
     { memoryFiles := mapSet st.memoryFiles tempPath tsx,
       componentComments := step.2, hasSvelte := true })
  else (filepath, st)

/-- The loop `for (let cntr = compileFilepaths.length; --cntr >= 0;)`:
entries are processed from the last index to the first. -/
def compileTransformGo (ctx : CompileCtx) :
    List String → CompileState → List String × CompileState
  | [], st => ([], st)
  | fp :: rest, st =>
    let p := compileTransformGo ctx rest st
    let q := compileTransformFile ctx p.2 fp
    (q.1 :: p.1, q.2)

/-- `DTSPluginSvelte.compileTransform({ logger, memoryFiles,
processedConfig })`.  The two resolved `svelte2tsx` shim paths are
external inputs. -/
def compileTransform (ctx : CompileCtx) (svelteJsxPath svelteShimsPath : String)
    (compileFilepaths : List String) (st : CompileState) :
    List String × CompileState :=
  let p := compileTransformGo ctx compileFilepaths { st with hasSvelte := false }
  if p.2.hasSvelte then (p.1 ++ [svelteJsxPath, svelteShimsPath], p.2)
  else p

/-- File-system / host effects performed by `postprocessDTS`, in order. -/
inductive FsEffect where
  | listFiles (dir : String)
  | readFile (path : String)
  | writeFile (path : String) (content : String)
  | postProcess (path : String) (comments : Option ComponentJSDoc)
deriving DecidableEq, Repr

/-- Loop body of `postprocessDTS` for one listed `.svelte.d.ts` file:
strip the spurious typedef blocks on disk, then hand the file to the
post-process manager with the comment bundle looked up under its path
relative to the declaration directory. -/
def postprocessFileStep (dtsDirectoryPath : String)
    (componentComments : List (String × ComponentJSDoc))
    (acc : List (String × String) × List FsEffect) (filepath : String) :
    List (String × String) × List FsEffect :=
  let relativeFilepath := upathRelative dtsDirectoryPath filepath
  let fileData := (lookupStr acc.1 filepath).getD ""
  let newData := stripTypedefs fileData
  (mapSet acc.1 filepath newData,
   acc.2 ++
     [FsEffect.readFile filepath, FsEffect.writeFile filepath newData,
      FsEffect.postProcess filepath (lookupStr componentComments relativeFilepath)])

/-- `DTSPluginSvelte.postprocessDTS({ PostProcess, processedConfig })`:
on `tsCheckJs` return immediately; otherwise list the `.svelte.d.ts`
files under the declaration directory and process each.  The file system
is the association list `files`; the host effects are returned in
order. -/
def postprocessDTS (tsCheckJs : Bool) (dtsDirectoryPath : String)
    (files : List (String × String))
    (componentComments : List (String × ComponentJSDoc)) :
    List (String × String) × List FsEffect :=
  if tsCheckJs then (files, [])
  else
    let svelteDTSPaths :=
      (files.map Prod.fst).filter
        (fun p => strStartsWith p dtsDirectoryPath && strEndsWith p ".svelte.d.ts")
    svelteDTSPaths.foldl (postprocessFileStep dtsDirectoryPath componentComments)
      (files, [FsEffect.listFiles dtsDirectoryPath])

end DTSPluginSvelte

/-! ### Spec-side descriptions used by the theorems -/

/-- Does a `@param` tag get stored as an event descriptor (non-blank name
and at least one of type / description)? -/
def isStoredParam (t : ParsedTag) : Bool :=
  decide (t.tag = "param") && decide (t.name ≠ "") &&
  (decide (t.rawType ≠ "") || decide (t.description ≠ ""))

/-- The event descriptor a stored `@param` tag denotes. -/
def paramEventData (t : ParsedTag) : EventData :=
  ⟨if t.description ≠ "" then some (buildEventComment t.description) else none,
   if t.rawType ≠ "" then some t.rawType else none⟩

/-- The warning a skipped `@param` tag produces (`none` when the tag is
stored). -/
def paramWarnOf (rel : String) (t : ParsedTag) : Option Warning :=
  if t.name = "" then some (Warning.paramNoName rel)
  else if t.rawType = "" ∧ t.description = "" then
    some (Warning.paramNoTypeOrDescription rel)
  else none

/-- Quote-stripped names that the event substitution actually matches:
members whose cleaned name has an entry in the event map. -/
def cleanHits (es : List (String × EventData)) (ms : List TypeMember) :
    List String :=
  ms.filterMap (fun m =>
    let cn := cleanPropertyName m.name
    if (lookupStr es cn).isSome then some cn else none)

/-- The member lists the event substitution visits: the top-level member
list, or each membered operand of a top-level intersection. -/
def memberLists : TypeShape → List (List TypeMember)
  | .membered ms => [ms]
  | .intersection parts =>
    parts.filterMap (fun p => match p with
      | TypePart.membered ms => some ms
      | TypePart.other _ => none)
  | .other _ => []

/-- Quote-stripped names of all visited members of a shape. -/
def allCleanNames (sh : TypeShape) : List String :=
  (memberLists sh).flatten.map (fun m => cleanPropertyName m.name)

/-- Relation between an original `Events` member and its rewritten form:
on a name match the descriptor's type (when supplied) replaces the
declared type and the descriptor's comment (when supplied) is spliced in;
unmatched members are untouched. -/
def memberProp (es : List (String × EventData)) (m m' : TypeMember) : Prop :=
  match lookupStr es (cleanPropertyName m.name) with
  | some ed =>
    m'.name = m.name ∧
    m'.typeText = (match ed.type with | some t => t | none => m.typeText) ∧
    m'.comment = (match ed.comment with | some cm => some cm | none => m.comment)
  | none => m' = m

/-! ## Theorems -/



/-- C5: `compileDiagnosticFilter` reports a diagnostic as suppressed iff
(1) its filename ends in `.svelte.js` or `.svelte.ts` and its code is 1005
or 2451 — in which case it is also sent once to the debug log —, or
(2) its code is 2304 and the message starts with
`Cannot find name '__sveltets_createSlot'` (no log), or (3) its code is
2339 and the message starts with
`Property 'undefined' does not exist on type '{` (no log); every other
diagnostic, including code 1005 from a non-matching filename, is not
suppressed. -/
theorem claim_C5_compileDiagnosticFilter (d : Diagnostic) (message : String) :
    ((DTSPluginSvelte.compileDiagnosticFilter d message).suppress = true ↔
      (((∃ n, d.fileName = some n ∧
           (strEndsWith n ".svelte.js" = true ∨ strEndsWith n ".svelte.ts" = true)) ∧
         (d.code = 1005 ∨ d.code = 2451)) ∨
       (d.code = 2304 ∧
         strStartsWith message "Cannot find name \x27__sveltets_createSlot\x27" = true) ∨
       (d.code = 2339 ∧
         strStartsWith message "Property \x27undefined\x27 does not exist on type \x27\x7b" = true))) ∧
    ((DTSPluginSvelte.compileDiagnosticFilter d message).debugLogged = true ↔
      ((∃ n, d.fileName = some n ∧
          (strEndsWith n ".svelte.js" = true ∨ strEndsWith n ".svelte.ts" = true)) ∧
        (d.code = 1005 ∨ d.code = 2451))) := by
  obtain ⟨fn, code⟩ := d
  cases fn with
  | none =>
    simp only [DTSPluginSvelte.compileDiagnosticFilter, svelteFileTest]
    constructor <;> · split <;> (try split) <;> (try split) <;> simp_all
  | some n =>
    simp only [DTSPluginSvelte.compileDiagnosticFilter, svelteFileTest]
    constructor <;> · split <;> (try split) <;> (try split) <;> simp_all

/-- C10: with a truthy `tsCheckJs` the `postprocessDTS` handler returns at
once: no file listing, no read, no write, no post-process invocation, and
the file system is returned unchanged. -/
theorem claim_C10_tsCheckJs_frame (dtsDirectoryPath : String)
    (files : List (String × String))
    (componentComments : List (String × ComponentJSDoc)) :
    DTSPluginSvelte.postprocessDTS true dtsDirectoryPath files componentComments =
      (files, []) := by
  simp [DTSPluginSvelte.postprocessDTS]


/-! ### Association-map lemmas -/

theorem lookupStr_map_keyswap {α : Type} (m : List (String × α)) (k k' : String)
    (v : α) (h : k' ≠ k) :
    lookupStr (m.map (fun p => if p.1 = k then (k, v) else p)) k' =
      lookupStr m k' := by
  induction m with
  | nil => rfl
  | cons a rest ih =>
    by_cases ha : a.1 = k
    · have hk : ¬ k = k' := fun hh => h hh.symm
      have hak : ¬ a.1 = k' := fun hh => h ((ha.symm.trans hh).symm)
      simp only [List.map_cons, ha, if_pos, lookupStr, hk, hak, ite_false]
      exact ih
    · by_cases hk : a.1 = k'
      · simp [List.map_cons, ha, lookupStr, hk, h]
      · simp only [List.map_cons, ha, ite_false, lookupStr, hk]
        exact ih

theorem lookupStr_map_hit {α : Type} (m : List (String × α)) (k : String)
    (v : α) (h : (lookupStr m k).isSome) :
    lookupStr (m.map (fun p => if p.1 = k then (k, v) else p)) k = some v := by
  induction m with
  | nil => simp [lookupStr] at h
  | cons a rest ih =>
    by_cases ha : a.1 = k
    · simp [List.map_cons, ha, lookupStr]
    · simp only [lookupStr, ha, ite_false] at h
      simp only [List.map_cons, ha, ite_false, lookupStr]
      exact ih h

theorem lookupStr_append_miss {α : Type} (m : List (String × α)) (k k' : String)
    (v : α) (h : lookupStr m k = none) :
    lookupStr (m ++ [(k, v)]) k' =
      if k' = k then some v else lookupStr m k' := by
  induction m with
  | nil =>
    by_cases hk : k = k'
    · simp [lookupStr, hk]
    · have hkk : ¬ k' = k := fun hh => hk hh.symm
      simp [lookupStr, hkk, fun hh : k = k' => hk hh]
  | cons a rest ih =>
    by_cases ha : a.1 = k
    · simp [lookupStr, ha] at h
    · simp only [lookupStr, ha, ite_false] at h
      by_cases hk : a.1 = k'
      · have hkk : ¬ k' = k := fun hh => ha (hk.trans hh)
        simp [lookupStr, hk, hkk]
      · simp only [List.cons_append, lookupStr, hk, ite_false]
        exact ih h

theorem lookupStr_mapSet {α : Type} (m : List (String × α)) (k k' : String) (v : α) :
    lookupStr (mapSet m k v) k' = if k' = k then some v else lookupStr m k' := by
  unfold mapSet
  by_cases hs : (lookupStr m k).isSome
  · rw [if_pos hs]
    by_cases hk : k' = k
    · subst hk; rw [if_pos rfl]; exact lookupStr_map_hit m k' v hs
    · rw [if_neg hk]; exact lookupStr_map_keyswap m k k' v hk
  · rw [if_neg hs]
    exact lookupStr_append_miss m k k' v (by cases hlk : lookupStr m k <;> simp_all)

/-! ### `@componentDocumentation` tag-loop lemmas -/

theorem compDocTagStep_events (rel : String) (acc : CompDocState) (t : ParsedTag)
    (name : String) :
    lookupStr (compDocTagStep rel acc t).events name =
      (if isStoredParam t && decide (t.name = name) then some (paramEventData t)
       else lookupStr acc.events name) := by
  obtain ⟨tag, tname, ttype, trawType, tdescription⟩ := t
  unfold compDocTagStep isStoredParam paramEventData
  by_cases hp : tag = "param"
  · subst hp
    by_cases hn : tname = ""
    · simp [hn]
    · by_cases hnm : tname = name
      · subst hnm
        by_cases hr : trawType = "" <;> by_cases hd : tdescription = "" <;>
          simp [hn, hr, hd, lookupStr_mapSet]
      · have hnm2 : ¬ name = tname := fun hh => hnm hh.symm
        by_cases hr : trawType = "" <;> by_cases hd : tdescription = "" <;>
          simp [hn, hr, hd, hnm, hnm2, lookupStr_mapSet]
  · by_cases hi : tag = "implements"
    · subst hi
      simp [componentTagsList]
    · by_cases hc : tag ∈ componentTagsList <;> simp [hp, hi, hc]

theorem compDocTagStep_warnings_param (rel : String) (acc : CompDocState)
    (t : ParsedTag) (h : t.tag = "param") :
    (compDocTagStep rel acc t).warnings =
      acc.warnings ++ (paramWarnOf rel t).toList := by
  obtain ⟨tag, tname, ttype, trawType, tdescription⟩ := t
  simp only at h
  subst h
  unfold compDocTagStep paramWarnOf
  by_cases hn : tname = ""
  · simp [hn]
  · by_cases hr : trawType = "" <;> by_cases hd : tdescription = "" <;>
      simp [hn, hr, hd]

theorem compDoc_foldl_events (rel : String) (L : List ParsedTag)
    (acc : CompDocState) (name : String) :
    lookupStr ((L.foldl (compDocTagStep rel) acc).events) name =
      (match (L.filter (fun t => isStoredParam t && decide (t.name = name))).getLast? with
       | some t => some (paramEventData t)
       | none => lookupStr acc.events name) := by
  induction L generalizing acc with
  | nil => rfl
  | cons t L ih =>
    rw [List.foldl_cons, ih]
    simp only [List.filter_cons]
    by_cases hp : (isStoredParam t && decide (t.name = name)) = true
    · simp only [hp, if_true]
      cases hf : L.filter (fun t => isStoredParam t && decide (t.name = name)) with
      | nil => simp [hf, compDocTagStep_events, hp]
      | cons b l =>
        obtain ⟨x, hx⟩ : ∃ x, (b :: l).getLast? = some x := by
          cases h2 : (b :: l).getLast? with
          | some x => exact ⟨x, rfl⟩
          | none => simp at h2
        rw [List.getLast?_cons_cons, hx]
    · have hp2 : (isStoredParam t && decide (t.name = name)) = false := by
        simpa using hp
      simp only [hp2, Bool.false_eq_true, if_false]
      cases hf : L.filter (fun t => isStoredParam t && decide (t.name = name)) with
      | nil => simp [hf, compDocTagStep_events, hp2]
      | cons b l =>
        obtain ⟨x, hx⟩ : ∃ x, (b :: l).getLast? = some x := by
          cases h2 : (b :: l).getLast? with
          | some x => exact ⟨x, rfl⟩
          | none => simp at h2
        rw [hx]

theorem compDoc_foldl_warnings (rel : String) (L : List ParsedTag)
    (acc : CompDocState) (h : ∀ t ∈ L, t.tag = "param") :
    (L.foldl (compDocTagStep rel) acc).warnings =
      acc.warnings ++ L.filterMap (paramWarnOf rel) := by
  induction L generalizing acc with
  | nil => simp
  | cons t L ih =>
    rw [List.foldl_cons, ih _ (fun x hx => h x (List.mem_cons_of_mem _ hx)),
      compDocTagStep_warnings_param rel acc t (h t (List.mem_cons_self _ _))]
    rw [List.filterMap_cons]
    cases paramWarnOf rel t <;> simp

/-- C7 (amended): parsing the `@param` sub-tags of a component
documentation block never raises; a blank-name tag is skipped with a
warning and a tag with neither type nor description is skipped with a
warning (the returned warnings are exactly those per-tag skip warnings, in
reverse document order, since the loop iterates the tag list in reverse);
when several tags carry the same name the *earlier* one in document order
provides the surviving event descriptor — the reverse iteration makes the
earlier write overwrite the later one — and no duplicate warning is
emitted. -/
theorem claim_C7_param_tags (rel : String) (ts : List ParsedTag)
    (h : ∀ t ∈ ts, t.tag = "param") :
    (∀ name, lookupStr (parseComponentDocumentationTags rel ts).events name =
       ((ts.filter (fun t => isStoredParam t && decide (t.name = name))).head?).map
         paramEventData) ∧
    (parseComponentDocumentationTags rel ts).warnings =
      ts.reverse.filterMap (paramWarnOf rel) := by
  constructor
  · intro name
    unfold parseComponentDocumentationTags
    rw [compDoc_foldl_events]
    rw [List.filter_reverse, List.getLast?_reverse]
    cases (ts.filter (fun t => isStoredParam t && decide (t.name = name))).head? with
    | some t => rfl
    | none => rfl
  · unfold parseComponentDocumentationTags
    rw [compDoc_foldl_warnings rel _ _ (fun t ht => h t (List.mem_reverse.mp ht))]
    simp

/-- C7 witness: a single well-formed `@param` tag, with the theorem
applied at that concrete input. -/
theorem claim_C7_param_tags_witness :
    (∀ name, lookupStr (parseComponentDocumentationTags "r"
        [⟨"param", "x", "", "T", ""⟩]).events name =
       (([⟨"param", "x", "", "T", ""⟩] : List ParsedTag).filter
          (fun t => isStoredParam t && decide (t.name = name))).head?.map
         paramEventData) ∧
    (parseComponentDocumentationTags "r" [⟨"param", "x", "", "T", ""⟩]).warnings =
      ([⟨"param", "x", "", "T", ""⟩] : List ParsedTag).reverse.filterMap
        (paramWarnOf "r") :=
  claim_C7_param_tags "r" [⟨"param", "x", "", "T", ""⟩] (by decide)

/-- C7 counterexample: two `@param` tags named `a`, the earlier typed `A`,
the later typed `B`.  The surviving descriptor carries type `A` (the
earlier tag, not the later one as the claim states) and no warning at all
is emitted for the duplicate. -/
theorem claim_C7_counterexample :
    (lookupStr (parseComponentDocumentationTags "r"
        [⟨"param", "a", "", "A", ""⟩, ⟨"param", "a", "", "B", ""⟩]).events "a" =
      some ⟨none, some "A"⟩) ∧
    (parseComponentDocumentationTags "r"
        [⟨"param", "a", "", "A", ""⟩, ⟨"param", "a", "", "B", ""⟩]).warnings = [] ∧
    lookupStr (parseComponentDocumentationTags "r"
        [⟨"param", "a", "", "A", ""⟩, ⟨"param", "a", "", "B", ""⟩]).events "a" ≠
      some ⟨none, some "B"⟩ := by decide

/-- C8 (amended): `processScript` always returns the bundle — even when
neither a component documentation block nor any per-name entry was found —
and the bundle carries the possibly-mutated script text in `scriptCode`
together with the relative file path. -/
theorem claim_C8_always_bundle (tree : List ScriptNode) (fp rel : String) :
    ∃ b, (JSDocCommentParser.processScript tree fp rel).bundle = some b ∧
      b.scriptCode =
        some (fullTextList (JSDocCommentParser.processScript tree fp rel).tree) ∧
      b.relativeFilepath = rel :=
  ⟨_, rfl, rfl, rfl⟩

/-- C8 counterexample: on an empty script — no component documentation
block, no exported names, nothing at all — `processScript` still returns a
populated (empty-valued) bundle, not the absent result the claim
requires. -/
theorem claim_C8_counterexample :
    (JSDocCommentParser.processScript [] "Comp.svelte" "Comp.svelte").bundle ≠ none ∧
    ((JSDocCommentParser.processScript [] "Comp.svelte" "Comp.svelte").bundle.map
      (fun b => (b.componentDocumentation, b.propNames, b.propComments))) =
        some (none, [], []) := by decide


/-! ### Tag-stripping / walk preservation lemmas -/

theorem compDocCommentStep_no_tag (rel : String)
    (acc : List CompDocEntry × List Warning) (c : JSDocComment)
    (h : hasCompDocTagComment c = false) :
    compDocCommentStep rel acc c = acc := by
  unfold compDocCommentStep
  rw [h]
  simp

theorem parseComponentDescription_no_tag (comments : List JSDocComment)
    (rel : String) (h : comments.any hasCompDocTagComment = false) :
    parseComponentDescription comments rel = ([], []) := by
  unfold parseComponentDescription
  have hgen : ∀ acc, comments.foldl (compDocCommentStep rel) acc = acc := by
    induction comments with
    | nil => intro acc; rfl
    | cons c rest ih =>
      intro acc
      simp only [List.any_cons, Bool.or_eq_false_iff] at h
      rw [List.foldl_cons, compDocCommentStep_no_tag rel acc c h.1]
      exact (by simpa [List.any_eq] using ih (by simp [h.2]) acc)
  exact hgen _

mutual

theorem walkNode_preserve (rel : String) :
    ∀ (n : ScriptNode), hasCompDocTagNode n = false →
      ∀ (depth : Nat) (st : WalkState), (walkNode rel depth st n).2 = n
  | .mk comments decl ownText children, h, depth, st => by
    have h1 : comments.any hasCompDocTagComment = false := by
      unfold hasCompDocTagNode at h
      exact (Bool.or_eq_false_iff.mp h).1
    have h2 : hasCompDocTagList children = false := by
      unfold hasCompDocTagNode at h
      exact (Bool.or_eq_false_iff.mp h).2
    unfold walkNode
    simp only [parseComponentDescription_no_tag comments rel h1]
    have hrec := walkList_preserve rel children h2 (depth + 1)
    by_cases hcd : st.componentDocumentation = none <;>
      simp [hcd, hrec]

theorem walkList_preserve (rel : String) :
    ∀ (ns : List ScriptNode), hasCompDocTagList ns = false →
      ∀ (depth : Nat) (st : WalkState), (walkList rel depth st ns).2 = ns
  | [], _, depth, st => rfl
  | n :: ns, h, depth, st => by
    have h1 : hasCompDocTagNode n = false := by
      unfold hasCompDocTagList at h
      exact (Bool.or_eq_false_iff.mp h).1
    have h2 : hasCompDocTagList ns = false := by
      unfold hasCompDocTagList at h
      exact (Bool.or_eq_false_iff.mp h).2
    unfold walkList
    simp [walkNode_preserve rel n h1 depth st, walkList_preserve rel ns h2 depth]

end

/-- C9 (amended): comment-tag stripping removes the
`@componentDocumentation` tag itself, so a second extraction run only
reproduces the first bundle when the first run found no tagged block at
all; for scripts without a tagged comment block extraction is idempotent —
it leaves the script text untouched and a second run returns the identical
bundle. -/
theorem claim_C9_idempotent_when_untagged (tree : List ScriptNode) (fp rel : String)
    (h : hasCompDocTagList tree = false) :
    (JSDocCommentParser.processScript tree fp rel).tree = tree ∧
    JSDocCommentParser.processScript
        ((JSDocCommentParser.processScript tree fp rel).tree) fp rel =
      JSDocCommentParser.processScript tree fp rel := by
  have hp : (JSDocCommentParser.processScript tree fp rel).tree = tree := by
    unfold JSDocCommentParser.processScript
    exact walkList_preserve rel tree h 0 _
  exact ⟨hp, by rw [hp]⟩

/-- C9 witness: an untagged one-statement script, with the theorem applied
at that concrete input. -/
theorem claim_C9_witness :
    (JSDocCommentParser.processScript [ScriptNode.mk [] none "let x;" []]
        "C.svelte" "C.svelte").tree = [ScriptNode.mk [] none "let x;" []] ∧
    JSDocCommentParser.processScript
        ((JSDocCommentParser.processScript [ScriptNode.mk [] none "let x;" []]
            "C.svelte" "C.svelte").tree) "C.svelte" "C.svelte" =
      JSDocCommentParser.processScript [ScriptNode.mk [] none "let x;" []]
        "C.svelte" "C.svelte" :=
  claim_C9_idempotent_when_untagged [ScriptNode.mk [] none "let x;" []]
    "C.svelte" "C.svelte" (by decide)

/-- C9 counterexample: a script whose single statement carries a
`@componentDocumentation` block.  The first run strips the tag and stores
the cleaned comment; running extraction again on the stripped output finds
no tagged block, so the second bundle (absent component documentation)
differs from the first — stripping is not idempotent as claimed. -/
theorem claim_C9_counterexample :
    (JSDocCommentParser.processScript
        ((JSDocCommentParser.processScript
            [.mk [⟨"Hello.", [⟨"componentDocumentation", "", "", "", ""⟩]⟩]
              none "let x;" []]
            "C.svelte" "C.svelte").tree)
        "C.svelte" "C.svelte").bundle ≠
      (JSDocCommentParser.processScript
        [.mk [⟨"Hello.", [⟨"componentDocumentation", "", "", "", ""⟩]⟩]
          none "let x;" []]
        "C.svelte" "C.svelte").bundle := by decide


/-! ### `PostprocessDTS.transform` lemmas -/

theorem implementsFold_class (pit : String → Option ImportTypeResult)
    (entries : List String) :
    ∀ acc : ClassDecl × List (String × List String),
      ((entries.foldl (PostprocessDTS.implementsEntryStep pit) acc).1).extendsClause =
          acc.1.extendsClause ∧
      ((entries.foldl (PostprocessDTS.implementsEntryStep pit) acc).1).name = acc.1.name ∧
      ((entries.foldl (PostprocessDTS.implementsEntryStep pit) acc).1).getAccessors =
          acc.1.getAccessors ∧
      ((entries.foldl (PostprocessDTS.implementsEntryStep pit) acc).1).setAccessors =
          acc.1.setAccessors := by
  induction entries with
  | nil => intro acc; exact ⟨rfl, rfl, rfl, rfl⟩
  | cons e rest ih =>
    intro acc
    rw [List.foldl_cons]
    refine ⟨?_, ?_, ?_, ?_⟩ <;>
      · rcases h : pit e with _ | r <;>
          simp [PostprocessDTS.implementsEntryStep, h, ih]

theorem transform_error_noClass (pit : String → Option ImportTypeResult)
    (comments : Option ComponentJSDoc) (s : SourceFile)
    (h1 : s.defaultExportClass = none) :
    PostprocessDTS.transform pit comments s = .error PostprocessDTS.errNoClass := by
  unfold PostprocessDTS.transform
  rw [h1]

theorem transform_error_noHeritage (pit : String → Option ImportTypeResult)
    (comments : Option ComponentJSDoc) (s : SourceFile) (cls : ClassDecl)
    (h1 : s.defaultExportClass = some cls) (h2 : cls.extendsClause = none) :
    PostprocessDTS.transform pit comments s = .error PostprocessDTS.errNoHeritage := by
  unfold PostprocessDTS.transform
  rw [h1]
  cases comments with
  | none => simp only [h2]
  | some c => cases hcd : c.componentDocumentation <;> simp only [hcd, h2]

theorem transform_error_noPropDef (pit : String → Option ImportTypeResult)
    (comments : Option ComponentJSDoc) (s : SourceFile) (cls : ClassDecl)
    (tns : List HeritageTypeNode)
    (h1 : s.defaultExportClass = some cls) (h2 : cls.extendsClause = some tns)
    (h3 : s.propDef = none) :
    PostprocessDTS.transform pit comments s = .error PostprocessDTS.errNoPropDef := by
  unfold PostprocessDTS.transform
  rw [h1]
  cases comments with
  | none => simp only [h2, h3]
  | some c =>
    cases hcd : c.componentDocumentation <;> simp only [hcd, h2, h3]

theorem transform_isOk (pit : String → Option ImportTypeResult)
    (comments : Option ComponentJSDoc) (s : SourceFile) (cls : ClassDecl)
    (tns : List HeritageTypeNode) (pd : PropDef)
    (h1 : s.defaultExportClass = some cls) (h2 : cls.extendsClause = some tns)
    (h3 : s.propDef = some pd) :
    ∃ out, PostprocessDTS.transform pit comments s = .ok out := by
  unfold PostprocessDTS.transform
  rw [h1]
  cases comments with
  | none =>
    simp only [h2, h3]
    cases htn : tns.head? with
    | none => exact ⟨_, rfl⟩
    | some tn =>
      by_cases hcond :
          (tn.isExpressionWithTypeArguments && tn.typeArguments.length == 3) = true <;>
        simp only [hcond, Bool.false_eq_true, if_true, if_false] <;> exact ⟨_, rfl⟩
  | some c =>
    cases hcd : c.componentDocumentation <;>
      · simp only [hcd, h2, h3]
        cases htn : tns.head? with
        | none => exact ⟨_, rfl⟩
        | some tn =>
          by_cases hcond :
              (tn.isExpressionWithTypeArguments && tn.typeArguments.length == 3) = true <;>
            simp only [hcond, Bool.false_eq_true, if_true, if_false] <;> exact ⟨_, rfl⟩

/-- C1: when the default-exported class's extends clause has a single
base-type argument node that is an expression with exactly three generic
type arguments, the rewriting replaces the three arguments by
`<ClassName>.Props`, `<ClassName>.Events`, `<ClassName>.Slots` in that
order, whatever the original argument texts were, and the final
declaration's class carries exactly these namespaced arguments. -/
theorem claim_C1_typeargs_rewrite (pit : String → Option ImportTypeResult)
    (comments : Option ComponentJSDoc) (s : SourceFile) (cls : ClassDecl)
    (tn : HeritageTypeNode) (pd : PropDef)
    (h1 : s.defaultExportClass = some cls)
    (h2 : cls.extendsClause = some [tn])
    (h3 : tn.isExpressionWithTypeArguments = true)
    (h4 : tn.typeArguments.length = 3)
    (h5 : s.propDef = some pd) :
    ∃ s' ws cls', PostprocessDTS.transform pit comments s = .ok (s', ws) ∧
      s'.defaultExportClass = some cls' ∧
      cls'.extendsClause = some [{ tn with typeArguments :=
        [cls.name ++ ".Props", cls.name ++ ".Events", cls.name ++ ".Slots"] }] := by
  have hcond : (tn.isExpressionWithTypeArguments && tn.typeArguments.length == 3) = true := by
    rw [h3, h4]; rfl
  unfold PostprocessDTS.transform
  rw [h1, h5]
  cases comments with
  | none =>
    simp only [h2, List.head?_cons, List.tail_cons, hcond, if_true]
    exact ⟨_, _, _, rfl, rfl, rfl⟩
  | some c =>
    cases hcd : c.componentDocumentation with
    | none =>
      simp only [hcd, h2, List.head?_cons, List.tail_cons, hcond, if_true]
      refine ⟨_, _, _, rfl, rfl, ?_⟩
      by_cases hpn : c.propNames.isEmpty <;>
        by_cases hife : (c.componentInterfaces.getD []).isEmpty <;>
        simp [hpn, hife, PostprocessDTS.addImplementsFold,
          (implementsFold_class pit (c.componentInterfaces.getD []) _).1]
    | some doc =>
      simp only [hcd, h2, List.head?_cons, List.tail_cons, hcond, if_true]
      refine ⟨_, _, _, rfl, rfl, ?_⟩
      by_cases hpn : c.propNames.isEmpty <;>
        by_cases hife : (c.componentInterfaces.getD []).isEmpty <;>
        simp [hpn, hife, PostprocessDTS.addImplementsFold,
          (implementsFold_class pit (c.componentInterfaces.getD []) _).1]

/-- C1 witness: a class `Comp` extending a node with three arbitrary
type arguments, with the theorem applied at that concrete input. -/
theorem claim_C1_witness :
    ∃ s' ws cls',
      PostprocessDTS.transform (fun _ => none) none
          ⟨some ⟨"Comp", true, false, none, some [⟨true, ["A", "B", "C"]⟩], [], [], []⟩,
           some ⟨TypeShape.other "P", TypeShape.other "E", TypeShape.other "S"⟩,
           [], [], [], []⟩ = .ok (s', ws) ∧
      s'.defaultExportClass = some cls' ∧
      cls'.extendsClause =
        some [⟨true, ["Comp" ++ ".Props", "Comp" ++ ".Events", "Comp" ++ ".Slots"]⟩] :=
  claim_C1_typeargs_rewrite (fun _ => none) none
    ⟨some ⟨"Comp", true, false, none, some [⟨true, ["A", "B", "C"]⟩], [], [], []⟩,
     some ⟨TypeShape.other "P", TypeShape.other "E", TypeShape.other "S"⟩,
     [], [], [], []⟩
    ⟨"Comp", true, false, none, some [⟨true, ["A", "B", "C"]⟩], [], [], []⟩
    ⟨true, ["A", "B", "C"]⟩
    ⟨TypeShape.other "P", TypeShape.other "E", TypeShape.other "S"⟩
    rfl rfl rfl (by decide) rfl

/-- C2: on a declaration satisfying the three preconditions but with no
comment bundle (`comments` is `undefined`), the rewriting completes
without raising: it appends the declared namespace named after the class
with the exported `Props` / `Events` / `Slots` aliases captured from
`__propDef`, appends the default export assignment, and emits no
warnings. -/
theorem claim_C2_no_comments (pit : String → Option ImportTypeResult)
    (s : SourceFile) (cls : ClassDecl) (tns : List HeritageTypeNode) (pd : PropDef)
    (h1 : s.defaultExportClass = some cls)
    (h2 : cls.extendsClause = some tns)
    (h3 : s.propDef = some pd) :
    ∃ s' ws, PostprocessDTS.transform pit none s = .ok (s', ws) ∧
      s'.modules = s.modules ++
        [{ name := cls.name, hasDeclareKeyword := true,
           aliases :=
             [⟨"Props", pd.props, true, [PostprocessDTS.aliasDoc "Props" cls.name]⟩,
              ⟨"Events", pd.events, true, [PostprocessDTS.aliasDoc "Events" cls.name]⟩,
              ⟨"Slots", pd.slots, true, [PostprocessDTS.aliasDoc "Slots" cls.name]⟩],
           docDescription := some (PostprocessDTS.namespaceDoc cls.name),
           docTags := [] }] ∧
      s'.exportAssignments = s.exportAssignments ++ [cls.name] ∧ ws = [] := by
  unfold PostprocessDTS.transform
  rw [h1, h3]
  simp only [h2]
  cases htn : tns.head? with
  | none =>
    simp only [htn]
    exact ⟨_, _, rfl, rfl, rfl, rfl⟩
  | some tn =>
    by_cases hcond : (tn.isExpressionWithTypeArguments && tn.typeArguments.length == 3) = true
    · simp only [htn, hcond, if_true]
      exact ⟨_, _, rfl, rfl, rfl, rfl⟩
    · simp only [htn, hcond, Bool.false_eq_true, if_false]
      exact ⟨_, _, rfl, rfl, rfl, rfl⟩

/-- C2 witness: a minimal declaration file with an extends clause and a
`__propDef` variable, processed with no comment bundle. -/
theorem claim_C2_witness :
    ∃ s' ws,
      PostprocessDTS.transform (fun _ => none) none
          ⟨some ⟨"Comp", true, false, none, some [⟨true, ["A", "B", "C"]⟩], [], [], []⟩,
           some ⟨TypeShape.other "P", TypeShape.other "E", TypeShape.other "S"⟩,
           [], [], [], []⟩ = .ok (s', ws) ∧
      s'.modules = [] ++
        [⟨"Comp", true,
          [⟨"Props", TypeShape.other "P", true, [PostprocessDTS.aliasDoc "Props" "Comp"]⟩,
           ⟨"Events", TypeShape.other "E", true, [PostprocessDTS.aliasDoc "Events" "Comp"]⟩,
           ⟨"Slots", TypeShape.other "S", true, [PostprocessDTS.aliasDoc "Slots" "Comp"]⟩],
          some (PostprocessDTS.namespaceDoc "Comp"), []⟩] ∧
      s'.exportAssignments = [] ++ ["Comp"] ∧ ws = [] :=
  claim_C2_no_comments (fun _ => none)
    ⟨some ⟨"Comp", true, false, none, some [⟨true, ["A", "B", "C"]⟩], [], [], []⟩,
     some ⟨TypeShape.other "P", TypeShape.other "E", TypeShape.other "S"⟩,
     [], [], [], []⟩
    ⟨"Comp", true, false, none, some [⟨true, ["A", "B", "C"]⟩], [], [], []⟩
    [⟨true, ["A", "B", "C"]⟩]
    ⟨TypeShape.other "P", TypeShape.other "E", TypeShape.other "S"⟩
    rfl rfl rfl

/-- C3: the rewriting raises one of its three descriptive named errors —
aborting that file — exactly when a precondition is unmet (no default
exported class, no extends heritage clause on it, or no `__propDef`
variable); under all three preconditions no error is raised. -/
theorem claim_C3_precondition_errors (pit : String → Option ImportTypeResult)
    (comments : Option ComponentJSDoc) (s : SourceFile) :
    ((∃ e, PostprocessDTS.transform pit comments s = .error e) ↔
      (s.defaultExportClass = none ∨
       (∃ cls, s.defaultExportClass = some cls ∧ cls.extendsClause = none) ∨
       s.propDef = none)) ∧
    (∀ e, PostprocessDTS.transform pit comments s = .error e →
      e = PostprocessDTS.errNoClass ∨ e = PostprocessDTS.errNoHeritage ∨
      e = PostprocessDTS.errNoPropDef) := by
  cases hc : s.defaultExportClass with
  | none =>
    refine ⟨⟨fun _ => Or.inl rfl, fun _ => ⟨_, transform_error_noClass pit comments s hc⟩⟩, ?_⟩
    intro e he
    rw [transform_error_noClass pit comments s hc] at he
    exact Or.inl (Except.error.inj he).symm
  | some cls =>
    cases hext : cls.extendsClause with
    | none =>
      refine ⟨⟨fun _ => Or.inr (Or.inl ⟨cls, rfl, hext⟩),
        fun _ => ⟨_, transform_error_noHeritage pit comments s cls hc hext⟩⟩, ?_⟩
      intro e he
      rw [transform_error_noHeritage pit comments s cls hc hext] at he
      exact Or.inr (Or.inl (Except.error.inj he).symm)
    | some tns =>
      cases hpd : s.propDef with
      | none =>
        refine ⟨⟨fun _ => Or.inr (Or.inr rfl),
          fun _ => ⟨_, transform_error_noPropDef pit comments s cls tns hc hext hpd⟩⟩, ?_⟩
        intro e he
        rw [transform_error_noPropDef pit comments s cls tns hc hext hpd] at he
        exact Or.inr (Or.inr (Except.error.inj he).symm)
      | some pd =>
        obtain ⟨out, hout⟩ := transform_isOk pit comments s cls tns pd hc hext hpd
        constructor
        · constructor
          · rintro ⟨e, he⟩
            rw [hout] at he
            exact absurd he (by simp)
          · rintro (h | ⟨cls2, hcls2, hext2⟩ | h)
            · exact absurd h (by simp)
            · rw [← Option.some.inj hcls2, hext] at hext2
              exact absurd hext2 (by simp)
            · exact absurd h (by simp)
        · intro e he
          rw [hout] at he
          exact absurd he (by simp)

/-- C3 witness: the theorem applied at a concrete declaration missing the
default exported class — the error equivalence instantiated in full. -/
theorem claim_C3_witness :
    ((∃ e, PostprocessDTS.transform (fun _ => none) none
          ⟨none, none, [], [], [], []⟩ = .error e) ↔
      ((⟨none, none, [], [], [], []⟩ : SourceFile).defaultExportClass = none ∨
       (∃ cls, (⟨none, none, [], [], [], []⟩ : SourceFile).defaultExportClass =
            some cls ∧ cls.extendsClause = none) ∨
       (⟨none, none, [], [], [], []⟩ : SourceFile).propDef = none)) ∧
    (∀ e, PostprocessDTS.transform (fun _ => none) none
          ⟨none, none, [], [], [], []⟩ = .error e →
      e = PostprocessDTS.errNoClass ∨ e = PostprocessDTS.errNoHeritage ∨
      e = PostprocessDTS.errNoPropDef) :=
  claim_C3_precondition_errors (fun _ => none) none ⟨none, none, [], [], [], []⟩


/-! ### Comment-bundle key lemmas -/

theorem postprocess_fold_lookup (d : String)
    (m : List (String × ComponentJSDoc)) (paths : List String) :
    ∀ (acc : List (String × String) × List DTSPluginSvelte.FsEffect),
      (∀ p c, DTSPluginSvelte.FsEffect.postProcess p c ∈ acc.2 →
        c = lookupStr m (upathRelative d p)) →
      ∀ p c, DTSPluginSvelte.FsEffect.postProcess p c ∈
          (paths.foldl (DTSPluginSvelte.postprocessFileStep d m) acc).2 →
        c = lookupStr m (upathRelative d p) := by
  induction paths with
  | nil => intro acc hacc p c hm; exact hacc p c hm
  | cons q rest ih =>
    intro acc hacc p c hm
    rw [List.foldl_cons] at hm
    refine ih _ ?_ p c hm
    intro p2 c2 h2
    unfold DTSPluginSvelte.postprocessFileStep at h2
    simp only [List.mem_append, List.mem_cons] at h2
    rcases h2 with h2 | h2 | h2 | h2 | h2
    · exact hacc p2 c2 h2
    · cases h2
    · cases h2
    · injection h2 with hp hc
      subst hp
      exact hc
    · cases h2

/-- C4: (i) for every `.svelte` file whose script section matches, the
bundle produced by `processScript` is stored under the key
`relative(rootDir, filepath) + ".d.ts"`; (ii) every post-process
invocation of `postprocessDTS` receives exactly the bundle looked up
under the file's path relative to the declaration directory — a missing
key yields the absent bundle, silently; (iii) rewriting with an absent
bundle raises no error when the three preconditions hold. -/
theorem claim_C4_comment_bundle_key :
    (∀ (ctx : DTSPluginSvelte.CompileCtx) (st : DTSPluginSvelte.CompileState)
       (fp : String) (m : ScriptMatch),
       strEndsWith fp ".svelte" = true →
       scriptContentExec (ctx.readFile fp) = some m →
       ∃ b, (JSDocCommentParser.processScript (ctx.parse m.contents) fp
              (upathRelative ctx.rootDir fp)).bundle = some b ∧
         (DTSPluginSvelte.compileTransformFile ctx st fp).2.componentComments =
           mapSet st.componentComments (upathRelative ctx.rootDir fp ++ ".d.ts") b) ∧
    (∀ (d : String) (files : List (String × String))
       (m : List (String × ComponentJSDoc)) (p : String) (c : Option ComponentJSDoc),
       DTSPluginSvelte.FsEffect.postProcess p c ∈
         (DTSPluginSvelte.postprocessDTS false d files m).2 →
       c = lookupStr m (upathRelative d p)) ∧
    (∀ (pit : String → Option ImportTypeResult) (s : SourceFile) (cls : ClassDecl)
       (tns : List HeritageTypeNode) (pd : PropDef),
       s.defaultExportClass = some cls → cls.extendsClause = some tns →
       s.propDef = some pd →
       ∃ out, PostprocessDTS.transform pit none s = .ok out) := by
  refine ⟨?_, ?_, ?_⟩
  · intro ctx st fp m h1 h2
    unfold DTSPluginSvelte.compileTransformFile
    simp only [h1, if_true, h2]
    exact ⟨_, rfl, rfl⟩
  · intro d files m p c hm
    unfold DTSPluginSvelte.postprocessDTS at hm
    simp only [Bool.false_eq_true, if_false] at hm
    refine postprocess_fold_lookup d m _ _ ?_ p c hm
    intro p2 c2 h2
    simp at h2
  · intro pit s cls tns pd h1 h2 h3
    exact transform_isOk pit none s cls tns pd h1 h2 h3

/-- C4 witness: a one-component compile step, a one-file postprocess run
over an empty bundle map (the lookup misses and `none` is passed), and a
successful rewrite with the absent bundle. -/
theorem claim_C4_witness :
    (∃ b, (JSDocCommentParser.processScript [] "/r/C.svelte"
            (upathRelative "/r" "/r/C.svelte")).bundle = some b ∧
       (DTSPluginSvelte.compileTransformFile
          ⟨"/r", fun _ => "<script>let x;</script>", fun _ => [], fun c => c⟩
          ⟨[], [], false⟩ "/r/C.svelte").2.componentComments =
         mapSet [] (upathRelative "/r" "/r/C.svelte" ++ ".d.ts") b) ∧
    ((none : Option ComponentJSDoc) =
      lookupStr [] (upathRelative "/out" "/out/C.svelte.d.ts")) ∧
    (∃ out, PostprocessDTS.transform (fun _ => none) none
        ⟨some ⟨"Comp", true, false, none, some [⟨true, ["A", "B", "C"]⟩], [], [], []⟩,
         some ⟨TypeShape.other "P", TypeShape.other "E", TypeShape.other "S"⟩,
         [], [], [], []⟩ = .ok out) :=
  ⟨claim_C4_comment_bundle_key.1
      ⟨"/r", fun _ => "<script>let x;</script>", fun _ => [], fun c => c⟩
      ⟨[], [], false⟩ "/r/C.svelte" ⟨"", "<script>", "let x;", ""⟩ (by decide) (by decide),
   claim_C4_comment_bundle_key.2.1 "/out" [("/out/C.svelte.d.ts", "x")] []
      "/out/C.svelte.d.ts" none (by decide),
   claim_C4_comment_bundle_key.2.2 (fun _ => none) _
      ⟨"Comp", true, false, none, some [⟨true, ["A", "B", "C"]⟩], [], [], []⟩
      [⟨true, ["A", "B", "C"]⟩]
      ⟨TypeShape.other "P", TypeShape.other "E", TypeShape.other "S"⟩ rfl rfl rfl⟩


/-! ### Event-substitution lemmas -/

theorem replaceMembers_forall2 (es : List (String × EventData))
    (ms : List TypeMember) :
    ∀ r, List.Forall₂ (memberProp es) ms (PostprocessDTS.replaceMembers es ms r).1 := by
  induction ms with
  | nil => intro r; exact List.Forall₂.nil
  | cons m ms ih =>
    intro r
    unfold PostprocessDTS.replaceMembers
    cases hl : lookupStr es (cleanPropertyName m.name) with
    | none =>
      simp only [hl]
      exact List.Forall₂.cons (by unfold memberProp; rw [hl]) (ih r)
    | some ed =>
      simp only [hl]
      refine List.Forall₂.cons ?_ (ih _)
      unfold memberProp
      rw [hl]
      obtain ⟨edc, edt⟩ := ed
      cases edt <;> cases edc <;> simp

theorem replaceMembers_remaining (es : List (String × EventData))
    (ms : List TypeMember) :
    ∀ r, r.Nodup →
      ((∀ n, n ∈ (PostprocessDTS.replaceMembers es ms r).2 ↔
          n ∈ r ∧ n ∉ cleanHits es ms) ∧
       ((PostprocessDTS.replaceMembers es ms r).2).Nodup) := by
  induction ms with
  | nil =>
    intro r hr
    refine ⟨fun n => ?_, hr⟩
    simp [PostprocessDTS.replaceMembers, cleanHits]
  | cons m ms ih =>
    intro r hr
    unfold PostprocessDTS.replaceMembers cleanHits
    cases hl : lookupStr es (cleanPropertyName m.name) with
    | none =>
      simp only [hl, Option.isSome_none, Bool.false_eq_true, if_false,
        List.filterMap_cons]
      have := ih r hr
      unfold cleanHits at this
      exact this
    | some ed =>
      simp only [hl, Option.isSome_some, if_true, List.filterMap_cons]
      have hr1 : (r.erase (cleanPropertyName m.name)).Nodup := hr.erase _
      have := ih (r.erase (cleanPropertyName m.name)) hr1
      unfold cleanHits at this
      refine ⟨fun n => ?_, this.2⟩
      rw [this.1 n]
      constructor
      · rintro ⟨hmem, hnot⟩
        rw [List.Nodup.mem_erase_iff hr] at hmem
        refine ⟨hmem.2, ?_⟩
        intro hc
        rcases List.mem_cons.mp hc with hc | hc
        · exact hmem.1 hc
        · exact hnot hc
      · rintro ⟨hmem, hnot⟩
        have hne : n ≠ cleanPropertyName m.name := fun he => hnot (he ▸ List.mem_cons_self _ _)
        refine ⟨(List.Nodup.mem_erase_iff hr).mpr ⟨hne, hmem⟩, ?_⟩
        intro hc
        exact hnot (List.mem_cons_of_mem _ hc)

theorem replaceParts_forall2 (es : List (String × EventData))
    (parts : List TypePart) :
    ∀ r, List.Forall₂ (List.Forall₂ (memberProp es))
      (parts.filterMap (fun p => match p with
        | TypePart.membered ms => some ms
        | TypePart.other _ => none))
      (((PostprocessDTS.replaceParts es parts r).1).filterMap (fun p => match p with
        | TypePart.membered ms => some ms
        | TypePart.other _ => none)) := by
  induction parts with
  | nil => intro r; exact List.Forall₂.nil
  | cons p parts ih =>
    intro r
    cases p with
    | membered ms =>
      unfold PostprocessDTS.replaceParts
      simp only [List.filterMap_cons]
      exact List.Forall₂.cons (replaceMembers_forall2 es ms r) (ih _)
    | other t =>
      unfold PostprocessDTS.replaceParts
      simp only [List.filterMap_cons]
      exact ih r

theorem replaceParts_remaining (es : List (String × EventData))
    (parts : List TypePart) :
    ∀ r, r.Nodup →
      ((∀ n, n ∈ (PostprocessDTS.replaceParts es parts r).2 ↔
          n ∈ r ∧ n ∉ cleanHits es ((parts.filterMap (fun p => match p with
            | TypePart.membered ms => some ms
            | TypePart.other _ => none)).flatten)) ∧
       ((PostprocessDTS.replaceParts es parts r).2).Nodup) := by
  induction parts with
  | nil =>
    intro r hr
    refine ⟨fun n => ?_, hr⟩
    simp [PostprocessDTS.replaceParts, cleanHits]
  | cons p parts ih =>
    intro r hr
    cases p with
    | membered ms =>
      unfold PostprocessDTS.replaceParts
      simp only [List.filterMap_cons, List.flatten_cons]
      have h1 := replaceMembers_remaining es ms r hr
      have h2 := ih (PostprocessDTS.replaceMembers es ms r).2 h1.2
      refine ⟨fun n => ?_, h2.2⟩
      rw [h2.1 n, h1.1 n]
      have hsplit : cleanHits es (ms ++ (parts.filterMap (fun p => match p with
          | TypePart.membered ms => some ms
          | TypePart.other _ => none)).flatten) =
          cleanHits es ms ++ cleanHits es ((parts.filterMap (fun p => match p with
          | TypePart.membered ms => some ms
          | TypePart.other _ => none)).flatten) := by
        unfold cleanHits
        exact List.filterMap_append _ _ _
      rw [hsplit]
      simp only [List.mem_append]
      tauto
    | other t =>
      unfold PostprocessDTS.replaceParts
      simp only [List.filterMap_cons]
      exact ih r hr

theorem replaceShape_forall2 (es : List (String × EventData)) (sh : TypeShape)
    (r : List String) :
    List.Forall₂ (List.Forall₂ (memberProp es))
      (memberLists sh) (memberLists (PostprocessDTS.replaceShape es sh r).1) := by
  cases sh with
  | membered ms =>
    unfold PostprocessDTS.replaceShape memberLists
    exact List.Forall₂.cons (replaceMembers_forall2 es ms r) List.Forall₂.nil
  | intersection parts =>
    unfold PostprocessDTS.replaceShape memberLists
    exact replaceParts_forall2 es parts r
  | other t =>
    unfold PostprocessDTS.replaceShape memberLists
    exact List.Forall₂.nil

theorem replaceShape_remaining (es : List (String × EventData)) (sh : TypeShape)
    (r : List String) (hr : r.Nodup) :
    (∀ n, n ∈ (PostprocessDTS.replaceShape es sh r).2 ↔
        n ∈ r ∧ n ∉ cleanHits es (memberLists sh).flatten) ∧
    ((PostprocessDTS.replaceShape es sh r).2).Nodup := by
  cases sh with
  | membered ms =>
    unfold PostprocessDTS.replaceShape memberLists
    have h1 := replaceMembers_remaining es ms r hr
    refine ⟨fun n => ?_, h1.2⟩
    rw [h1.1 n]
    simp
  | intersection parts =>
    unfold PostprocessDTS.replaceShape memberLists
    exact replaceParts_remaining es parts r hr
  | other t =>
    unfold PostprocessDTS.replaceShape memberLists
    refine ⟨fun n => ?_, hr⟩
    simp [cleanHits]

theorem cleanHits_subset (es : List (String × EventData)) (ms : List TypeMember)
    (n : String) (h : n ∈ cleanHits es ms) :
    n ∈ ms.map (fun m => cleanPropertyName m.name) := by
  unfold cleanHits at h
  obtain ⟨m, hm, hsome⟩ := List.mem_filterMap.mp h
  simp only at hsome
  by_cases hs : (lookupStr es (cleanPropertyName m.name)).isSome
  · rw [if_pos hs] at hsome
    injection hsome with he
    exact he ▸ List.mem_map_of_mem _ hm
  · rw [if_neg hs] at hsome
    cases hsome

theorem count_map_eventWarn (l : List String) (rel n : String) :
    (l.map (fun x => Warning.eventNameNotFound x rel)).count
      (Warning.eventNameNotFound n rel) = l.count n := by
  induction l with
  | nil => rfl
  | cons x l ih =>
    simp only [List.map_cons, List.count_cons, ih]
    by_cases hx : x = n
    · simp [hx]
    · simp [hx, fun hh : Warning.eventNameNotFound x rel = Warning.eventNameNotFound n rel =>
        hx (by injection hh)]

example (l : List String) (h : l.Nodup) (a : String) (ha : a ∈ l) : l.count a = 1 :=
  List.count_eq_one_of_mem h ha

/-- C6: under the preconditions and with captured event descriptors, every
member of the `Events` alias shape (plain member list or any member list
inside an intersection) whose quote-stripped name matches a captured event
gets the descriptor's type when supplied and the descriptor's doc comment
spliced in when supplied (unmatched members are untouched); and for every
captured event name matched by no member, exactly one warning is emitted
after scanning. -/
theorem claim_C6_events_substitution (pit : String → Option ImportTypeResult)
    (s : SourceFile) (cls : ClassDecl) (tns : List HeritageTypeNode) (pd : PropDef)
    (c : ComponentJSDoc) (es : List (String × EventData))
    (h1 : s.defaultExportClass = some cls)
    (h2 : cls.extendsClause = some tns)
    (h3 : s.propDef = some pd)
    (h4 : c.componentEvents = some es)
    (h5 : es ≠ [])
    (h6 : (es.map Prod.fst).Nodup) :
    ∃ s' ws ns propsAl evAl slotsAl,
      PostprocessDTS.transform pit (some c) s = .ok (s', ws) ∧
      s'.modules.getLast? = some ns ∧
      ns.aliases = [propsAl, evAl, slotsAl] ∧
      evAl.name = "Events" ∧
      List.Forall₂ (List.Forall₂ (memberProp es))
        (memberLists pd.events) (memberLists evAl.typeShape) ∧
      (∀ n, n ∈ es.map Prod.fst → n ∉ allCleanNames pd.events →
        ws.count (Warning.eventNameNotFound n c.relativeFilepath) = 1) := by
  have h5e : es.isEmpty = false := by
    cases es with
    | nil => exact absurd rfl h5
    | cons a l => rfl
  have hrem := replaceShape_remaining es pd.events (es.map Prod.fst) h6
  have hcount : ∀ n, n ∈ es.map Prod.fst → n ∉ allCleanNames pd.events →
      ((PostprocessDTS.replaceShape es pd.events (es.map Prod.fst)).2.map
        (fun x => Warning.eventNameNotFound x c.relativeFilepath)).count
          (Warning.eventNameNotFound n c.relativeFilepath) = 1 := by
    intro n hn hnc
    rw [count_map_eventWarn]
    have hmem : n ∈ (PostprocessDTS.replaceShape es pd.events (es.map Prod.fst)).2 := by
      rw [(hrem.1 n)]
      refine ⟨hn, fun hh => hnc ?_⟩
      unfold allCleanNames
      have := cleanHits_subset es (memberLists pd.events).flatten n hh
      exact this
    exact List.count_eq_one_of_mem hrem.2 hmem
  have hf2 := replaceShape_forall2 es pd.events (es.map Prod.fst)
  unfold PostprocessDTS.transform
  rw [h1, h3]
  cases hcd : c.componentDocumentation with
  | none =>
    simp only [hcd, h2, Option.some_bind, h4, h5e, Option.map_some', Option.getD_some,
      Bool.false_eq_true, if_false]
    cases htn : tns.head? with
    | none =>
      exact ⟨_, _, _, _, _, _, rfl, List.getLast?_concat _, rfl, rfl, hf2, hcount⟩
    | some tn =>
      by_cases hcond :
          (tn.isExpressionWithTypeArguments && tn.typeArguments.length == 3) = true <;>
        simp only [hcond, Bool.false_eq_true, if_true, if_false] <;>
        · exact ⟨_, _, _, _, _, _, rfl, List.getLast?_concat _, rfl, rfl, hf2, hcount⟩
  | some doc =>
    simp only [hcd, h2, Option.some_bind, h4, h5e, Option.map_some', Option.getD_some,
      Bool.false_eq_true, if_false]
    cases htn : tns.head? with
    | none =>
      exact ⟨_, _, _, _, _, _, rfl, List.getLast?_concat _, rfl, rfl, hf2, hcount⟩
    | some tn =>
      by_cases hcond :
          (tn.isExpressionWithTypeArguments && tn.typeArguments.length == 3) = true <;>
        simp only [hcond, Bool.false_eq_true, if_true, if_false] <;>
        · exact ⟨_, _, _, _, _, _, rfl, List.getLast?_concat _, rfl, rfl, hf2, hcount⟩

/-- C6 witness: one `click` member, one matched descriptor and one
unmatched descriptor (`missing`), with the theorem applied there. -/
theorem claim_C6_witness :
    ∃ s' ws ns propsAl evAl slotsAl,
      PostprocessDTS.transform (fun _ => none)
          (some ⟨none, some [("click", ⟨none, some "MouseEvent"⟩), ("missing", ⟨none, some "X"⟩)],
                 none, [], [], [], [], "C.svelte", none⟩)
          ⟨some ⟨"Comp", true, false, none, some [⟨true, ["A", "B", "C"]⟩], [], [], []⟩,
           some ⟨TypeShape.other "P",
                 TypeShape.membered [⟨"click", "Event", none⟩],
                 TypeShape.other "S"⟩,
           [], [], [], []⟩ = .ok (s', ws) ∧
      s'.modules.getLast? = some ns ∧
      ns.aliases = [propsAl, evAl, slotsAl] ∧
      evAl.name = "Events" ∧
      List.Forall₂ (List.Forall₂
          (memberProp [("click", ⟨none, some "MouseEvent"⟩), ("missing", ⟨none, some "X"⟩)]))
        (memberLists (TypeShape.membered [⟨"click", "Event", none⟩]))
        (memberLists evAl.typeShape) ∧
      (∀ n, n ∈ ([("click", (⟨none, some "MouseEvent"⟩ : EventData)),
            ("missing", ⟨none, some "X"⟩)] : List (String × EventData)).map Prod.fst →
        n ∉ allCleanNames (TypeShape.membered [⟨"click", "Event", none⟩]) →
        ws.count (Warning.eventNameNotFound n "C.svelte") = 1) :=
  claim_C6_events_substitution (fun _ => none) _
    ⟨"Comp", true, false, none, some [⟨true, ["A", "B", "C"]⟩], [], [], []⟩
    [⟨true, ["A", "B", "C"]⟩]
    ⟨TypeShape.other "P", TypeShape.membered [⟨"click", "Event", none⟩], TypeShape.other "S"⟩
    ⟨none, some [("click", ⟨none, some "MouseEvent"⟩), ("missing", ⟨none, some "X"⟩)],
     none, [], [], [], [], "C.svelte", none⟩
    [("click", ⟨none, some "MouseEvent"⟩), ("missing", ⟨none, some "X"⟩)]
    rfl rfl rfl rfl (by decide) (by decide)
